import Mathlib

/-!
Verification of the delivery-expedition logistics module
(`delivery_logistics_expedition_only_date`).

The Python source is shallowly embedded: each relevant model method is
translated into an executable Lean function over explicit record/state
types, and the specification claims are proved (or refuted) about those
functions.  Databases are modelled as flat lists of records carrying
integer ids; monetary-free float quantities (boxes, weight) are modelled
as rationals; `Many2one` references are `Option Nat`; raising an Odoo
`UserError`/`ValidationError` aborts the transaction, which is modelled
by returning the error (and the unchanged state) instead of a new state.
-/

namespace Expedo

/-- Lifecycle states of an expedition (`EXPEDITION_STATE_SELECTION`). -/
inductive ExpState where
  | planned
  | preparing
  | ready
  | loaded
  | dispatched
  | delivered
  | done
  | hold
deriving DecidableEq, Repr

/-- `EXPEDITION_LOCKED_STATES`: from these states onwards data is stabilized. -/
def lockedStates : List ExpState :=
  [ExpState.loaded, ExpState.dispatched, ExpState.delivered, ExpState.done]

/-- `_compute_is_locked`: an expedition is locked when its state is in
`EXPEDITION_LOCKED_STATES`. -/
def isLockedState (s : ExpState) : Bool :=
  lockedStates.contains s

/-- `DeliveryExpedition._state_flow`: the forward lifecycle order used for
step-back navigation. -/
def stateFlow : List ExpState :=
  [ExpState.planned, ExpState.preparing, ExpState.ready, ExpState.loaded,
   ExpState.dispatched, ExpState.delivered, ExpState.done]

/-- One expedition's state data relevant to `action_step_back`:
current state and the remembered previous state (`False` → `none`). -/
structure StepExp where
  state : ExpState
  prevState : Option ExpState
deriving DecidableEq, Repr

/-- The effect of `action_step_back` on a single record that is neither
`planned` nor `hold`: move to the immediately preceding state of
`_state_flow`, with the source's fallback to `planned` for a state not
found in the flow. -/
def stepBackForward (s : ExpState) : ExpState :=
  match stateFlow.findIdx? (fun t => t = s) with
  | none => ExpState.planned
  | some i => if i = 0 then s else stateFlow.getD (i - 1) ExpState.planned

/-- `DeliveryExpedition.action_step_back`, iterating over the recordset in
order.  The `hold` branch of the source ends in `return`, so the first
record found in state `hold` is restored to its previous state (or
`planned`) and every later record is left untouched. -/
def actionStepBack : List StepExp → List StepExp
  | [] => []
  | e :: rest =>
    if e.state = ExpState.planned then e :: actionStepBack rest
    else if e.state = ExpState.hold then
      { e with state := e.prevState.getD ExpState.planned } :: rest
    else
      { e with state := stepBackForward e.state } :: actionStepBack rest

/-- The per-record meaning of stepping back, used to describe the whole-loop
behaviour when no record is on hold. -/
def stepBackOne (e : StepExp) : StepExp :=
  if e.state = ExpState.planned then e
  else if e.state = ExpState.hold then
    { e with state := e.prevState.getD ExpState.planned }
  else { e with state := stepBackForward e.state }

/-! ## Data model

Flat relational embedding of `delivery.expedition`,
`delivery.expedition.line` and `delivery.expedition.allocation`.
Drivers, vehicles, companies, dates and pickings are identified by
natural numbers.  Allocations carry no surrogate id: no modelled code
path distinguishes two allocations beyond their `(line, driver)` key and
their creation order, both of which the list representation preserves. -/

/-- One `delivery.expedition.allocation` row. -/
structure Alloc where
  lineId : Nat
  driver : Nat
  vehicle : Option Nat
  boxes : ℚ
  weight : ℚ
deriving DecidableEq, Repr

/-- One `delivery.expedition.line` row. -/
structure Line where
  id : Nat
  expeditionId : Nat
  sequence : Int
  pickingId : Nat
  vehicle : Option Nat
  participants : List Nat
deriving DecidableEq, Repr

/-- One `delivery.expedition` row. -/
structure Expedition where
  id : Nat
  company : Nat
  date : Nat
  driverId : Nat
  defaultVehicle : Option Nat
  state : ExpState
  prevState : Option ExpState
deriving DecidableEq, Repr

/-- The transactional store: the three tables plus a fresh-id supply. -/
structure World where
  expeditions : List Expedition
  lines : List Line
  allocs : List Alloc
  nextId : Nat
deriving DecidableEq, Repr

/-- External master data consulted by the module: `res.users.default_vehicle_id`
and the `fleet.vehicle` search by the driver's partner. -/
structure Env where
  driverDefault : Nat → Option Nat
  fleetVehicleOf : Nat → Option Nat

/-- Browse an expedition by id. -/
def findExp (w : World) (eid : Nat) : Option Expedition :=
  w.expeditions.find? (fun e => e.id = eid)

/-- `search([(company,=,c),(date,=,d),(driver_id,=,drv)], limit=1)`. -/
def findExpKey (w : World) (c d drv : Nat) : Option Expedition :=
  w.expeditions.find? (fun e => e.company = c ∧ e.date = d ∧ e.driverId = drv)

/-- Browse a line by id. -/
def findLine (w : World) (lid : Nat) : Option Line :=
  w.lines.find? (fun l => l.id = lid)

/-- `search([(expedition_id,=,e),(picking_id,=,p)], limit=1)`. -/
def findLineByExpPicking (w : World) (eid pid : Nat) : Option Line :=
  w.lines.find? (fun l => l.expeditionId = eid ∧ l.pickingId = pid)

/-- A line's `allocation_ids` one2many. -/
def allocsOfLine (w : World) (lid : Nat) : List Alloc :=
  w.allocs.filter (fun a => a.lineId = lid)

/-- An expedition's `line_ids` one2many (record order; `_order` applied
separately where the source relies on it). -/
def linesOfExp (w : World) (eid : Nat) : List Line :=
  w.lines.filter (fun l => l.expeditionId = eid)

/-! ## Line ordering and resequencing -/

/-- The ordering used by `search(..., order="sequence, id")`:
by sequence, ties by id (creation order). -/
def lineLe (a b : Line) : Bool :=
  a.sequence < b.sequence ∨ (a.sequence = b.sequence ∧ a.id ≤ b.id)

/-- Insertion step of the stable sort on `lineLe`. -/
def insertLine (x : Line) : List Line → List Line
  | [] => [x]
  | y :: ys => if lineLe x y then x :: y :: ys else y :: insertLine x ys

/-- Sort a list of lines by `(sequence, id)`. -/
def sortLines : List Line → List Line
  | [] => []
  | x :: xs => insertLine x (sortLines xs)

/-- `DeliveryExpedition._resequence_lines` for one expedition: walk the
expedition's lines in `(sequence, id)` order and write `1, 2, …` into
their `sequence` fields (with `skip_resequence`, so no recursion). -/
def resequenceExp (w : World) (eid : Nat) : World :=
  let idsInOrder := (sortLines (linesOfExp w eid)).map (fun l => l.id)
  { w with
    lines := w.lines.map (fun l =>
      if l.expeditionId = eid then
        { l with sequence := (idsInOrder.findIdx (fun i => i = l.id) : Int) + 1 }
      else l) }

/-! ## Allocation ↔ participant synchronization -/

/-- The vehicle default used when `_sync_allocations_with_participants`
creates a missing allocation row: `line.vehicle_id or
expedition.default_vehicle_id or driver.default_vehicle_id or False`. -/
def allocDefaultVehicle (env : Env) (w : World) (l : Line) (d : Nat) : Option Nat :=
  (l.vehicle.orElse (fun _ =>
    ((findExp w l.expeditionId).bind (fun e => e.defaultVehicle)).orElse (fun _ =>
      env.driverDefault d)))

/-- Fresh zero allocation rows for the drivers newly added to a line. -/
def mkZeroAllocs (env : Env) (w : World) (l : Line) (ds : List Nat) : List Alloc :=
  ds.map (fun d =>
    { lineId := l.id, driver := d, vehicle := allocDefaultVehicle env w l d
      boxes := 0, weight := 0 })

/-- `DeliveryExpeditionLine._sync_allocations_with_participants` for one
line: drop allocations whose driver is no longer a participant, then
create a zero allocation (vehicle from the fallback chain) for every
participant that has none. -/
def syncAllocations (env : Env) (w : World) (lid : Nat) : World :=
  match findLine w lid with
  | none => w
  | some l =>
    let kept := w.allocs.filter (fun a => ¬(a.lineId = lid ∧ a.driver ∉ l.participants))
    let existingDrivers := (kept.filter (fun a => a.lineId = lid)).map (fun a => a.driver)
    let toCreate := l.participants.filter (fun d => d ∉ existingDrivers)
    { w with allocs := kept ++ mkZeroAllocs env w l toCreate }

/-- Raw `super().write({'participant_driver_ids': …})`. -/
def updateLineParts (w : World) (lid : Nat) (ps : List Nat) : World :=
  { w with lines := w.lines.map (fun l => if l.id = lid then { l with participants := ps } else l) }

/-- `DeliveryExpeditionLine.write({'participant_driver_ids': …})` under the
`skip_split_drivers` context: update participants, then re-sync the
allocations (the split step is skipped). -/
def lineWritePartsNoSplit (env : Env) (w : World) (lid : Nat) (ps : List Nat) : World :=
  syncAllocations env (updateLineParts w lid ps) lid

/-! ## Record creation -/

/-- `DeliveryExpedition.create` for the values used by the split/transfer
paths (`company`, `date`, `driver_id` only): the new expedition starts in
`planned`, and since no default vehicle is supplied, the driver's default
vehicle is proposed as `default_vehicle_id`. -/
def createExpedition (env : Env) (w : World) (c d drv : Nat) : World × Nat :=
  let e : Expedition :=
    { id := w.nextId, company := c, date := d, driverId := drv
      defaultVehicle := env.driverDefault drv
      state := ExpState.planned, prevState := none }
  ({ w with expeditions := w.expeditions ++ [e], nextId := w.nextId + 1 }, w.nextId)

/-- The sequence assigned by `DeliveryExpeditionLine.create` when none is
supplied: one past the maximum `sequence` among the expedition's current
lines (`search(order="sequence desc, id desc", limit=1)`), or `1` when it
has none. -/
def nextSeqFor (w : World) (eid : Nat) : Int :=
  match (linesOfExp w eid).map (fun l => l.sequence) with
  | [] => 0 + 1
  | s :: ss => (ss.foldl max s) + 1

/-- `DeliveryExpeditionLine.create` for one line: assign the sequence
(given, or one past the current maximum), insert the row, renumber the
expedition's lines to `1..N`, and sync the allocations of the new line. -/
def createLine (env : Env) (w : World) (eid pid : Nat) (ps : List Nat)
    (veh : Option Nat) (seq? : Option Int) : World × Nat :=
  let seq := match seq? with
    | some s => s
    | none => nextSeqFor w eid
  let lid := w.nextId
  let l : Line :=
    { id := lid, expeditionId := eid, sequence := seq, pickingId := pid
      vehicle := veh, participants := ps }
  let w1 : World := { w with lines := w.lines ++ [l], nextId := lid + 1 }
  let w2 := resequenceExp w1 eid
  (syncAllocations env w2 lid, lid)

/-! ## Single-driver normalization (Requirement #5 / `_split_extra_drivers…`) -/

/-- The per-extra-driver body of
`_split_extra_drivers_to_separate_expeditions`: get or create the
driver's `(company, date)` expedition, then reuse the expedition's line
for the same picking (forcing its participants to exactly this driver if
they differ) or create a new single-driver line copying the source
line's vehicle override. -/
def splitOneDriver (env : Env) (w : World) (c date pid : Nat)
    (srcVehicle : Option Nat) (d : Nat) : World :=
  let we : World × Nat :=
    match findExpKey w c date d with
    | some te => (w, te.id)
    | none => createExpedition env w c date d
  match findLineByExpPicking we.1 we.2 pid with
  | some ex =>
    if d ∈ ex.participants ∧ ex.participants.length = 1 then we.1
    else lineWritePartsNoSplit env we.1 ex.id [d]
  | none => (createLine env we.1 we.2 pid [d] srcVehicle none).1

/-- Expeditions holding, after the split loop, the relocated line of an
extra driver (`created_lines.mapped("expedition_id")`), used for the
final resequencing pass. -/
def targetExpIds (w : World) (c date : Nat) (ds : List Nat) : List Nat :=
  ds.filterMap (fun d => (findExpKey w c date d).map (fun e => e.id))

/-- `DeliveryExpeditionLine._split_extra_drivers_to_separate_expeditions`:
when a line has more than one participant, keep only one driver on it
(the expedition's main driver if present, else the first participant)
and move every other driver to a single-driver line for the same picking
in that driver's own `(company, date)` expedition, then resequence the
source and target expeditions. -/
def splitExtraDrivers (env : Env) (w : World) (lid : Nat) : World :=
  match findLine w lid with
  | none => w
  | some l =>
    if l.participants.length ≤ 1 then w
    else
      match findExp w l.expeditionId with
      | none => w
      | some e =>
        let keep := if e.driverId ∈ l.participants then e.driverId
                    else l.participants.headD 0
        let extras := l.participants.filter (fun d => d ≠ keep)
        let w1 := lineWritePartsNoSplit env w lid [keep]
        let w2 := extras.foldl
          (fun wa d => splitOneDriver env wa e.company e.date l.pickingId l.vehicle d) w1
        let w3 := resequenceExp w2 e.id
        (targetExpIds w2 e.company e.date extras).foldl resequenceExp w3

/-- `DeliveryExpeditionLine.write({'participant_driver_ids': …})` outside
any skip context: raw update, then the single-driver split when more
than one participant remains, then allocation re-sync on this line. -/
def lineWriteParts (env : Env) (w : World) (lid : Nat) (ps : List Nat) : World :=
  let w1 := updateLineParts w lid ps
  let w2 :=
    match findLine w1 lid with
    | some l => if l.participants.length > 1 then splitExtraDrivers env w1 lid else w1
    | none => w1
  syncAllocations env w2 lid

/-- `DeliveryExpeditionLine.unlink`: remember the owning expedition,
delete the row (its allocations cascade), then resequence. -/
def unlinkLine (w : World) (lid : Nat) : World :=
  match findLine w lid with
  | none => w
  | some l =>
    let w1 : World := { w with
      lines := w.lines.filter (fun x => x.id ≠ lid)
      allocs := w.allocs.filter (fun a => a.lineId ≠ lid) }
    resequenceExp w1 l.expeditionId

/-- `DeliveryExpeditionLine.write` of `sequence` and/or `expedition_id`
(outside `skip_resequence`): update the row, then resequence the
expeditions owning the line before and after the write. -/
def lineWriteSeqExp (w : World) (lid : Nat) (newSeq : Option Int)
    (newExp : Option Nat) : World :=
  match findLine w lid with
  | none => w
  | some l =>
    let w1 : World := { w with
      lines := w.lines.map (fun x =>
        if x.id = lid then
          { x with
            sequence := newSeq.getD x.sequence
            expeditionId := newExp.getD x.expeditionId }
        else x) }
    if newSeq.isSome || newExp.isSome then
      resequenceExp (resequenceExp w1 l.expeditionId) (newExp.getD l.expeditionId)
    else w1

/-- The sequence of the line with a given id (`0` when absent). -/
def seqOfId (w : World) (i : Nat) : Int :=
  match findLine w i with
  | some l => l.sequence
  | none => 0

/-! ## Expedition main-driver change (`write` of `driver_id`) -/

/-- Update the first list element satisfying `p`. -/
def updateFirst (p : Alloc → Bool) (f : Alloc → Alloc) : List Alloc → List Alloc
  | [] => []
  | a :: as => if p a then f a :: as else a :: updateFirst p f as

/-- Remove the first list element satisfying `p`. -/
def removeFirst (p : Alloc → Bool) : List Alloc → List Alloc
  | [] => []
  | a :: as => if p a then as else a :: removeFirst p as

/-- The allocation-update tail of `_replace_primary_driver`: if the line
still has an allocation for the old driver, merge it into the new
driver's allocation (summing boxes and weight, then deleting the old
row) or, when the new driver has none, just move it by rewriting its
`driver_id`. -/
def mergeMoveAlloc (w : World) (lid oldD newD : Nat) : World :=
  let la := allocsOfLine w lid
  match la.find? (fun a => a.driver = oldD) with
  | none => w
  | some oldA =>
    match la.find? (fun a => a.driver = newD) with
    | some _ =>
      let w1 : World := { w with
        allocs := updateFirst (fun a => a.lineId = lid ∧ a.driver = newD)
          (fun a => { a with boxes := a.boxes + oldA.boxes, weight := a.weight + oldA.weight })
          w.allocs }
      { w1 with allocs := removeFirst (fun a => a.lineId = lid ∧ a.driver = oldD) w1.allocs }
    | none =>
      { w with
        allocs := updateFirst (fun a => a.lineId = lid ∧ a.driver = oldD)
          (fun a => { a with driver := newD }) w.allocs }

/-- `DeliveryExpeditionLine._replace_primary_driver`: swap the old main
driver for the new one in the participants (the participant assignment
goes through the full `write`, including the single-driver split and the
allocation re-sync), then run the allocation merge/move on whatever
allocation rows remain.  The trailing document/task syncs touch only
the external tables modelled separately. -/
def replacePrimaryDriver (env : Env) (w : World) (lid oldD newD : Nat) : World :=
  match findLine w lid with
  | none => w
  | some l =>
    if oldD = newD then w
    else
      let w1 :=
        if oldD ∈ l.participants then
          let remaining := l.participants.filter (fun d => d ≠ oldD)
          let ps := if newD ∈ remaining then remaining else remaining ++ [newD]
          lineWriteParts env w lid ps
        else if newD ∈ l.participants then w
        else lineWriteParts env w lid (l.participants ++ [newD])
      mergeMoveAlloc w1 lid oldD newD

/-- Raw update of `driver_id` on an expedition. -/
def setExpDriver (w : World) (eid newD : Nat) : World :=
  { w with expeditions := w.expeditions.map (fun e =>
      if e.id = eid then { e with driverId := newD } else e) }

/-- Raw update of `default_vehicle_id` on an expedition. -/
def setExpDefaultVehicle (w : World) (eid : Nat) (v : Option Nat) : World :=
  { w with expeditions := w.expeditions.map (fun e =>
      if e.id = eid then { e with defaultVehicle := v } else e) }

/-- `DeliveryExpedition.write({'driver_id': …})` followed by
`_sync_driver_change_to_related_documents`: remember the old driver,
write the new one, and if they differ run `_replace_primary_driver` on
every owned line and finally propose the new driver's default vehicle
when the expedition has none. -/
def expeditionWriteDriver (env : Env) (w : World) (eid newD : Nat) : World :=
  match findExp w eid with
  | none => w
  | some e =>
    let oldD := e.driverId
    let w1 := setExpDriver w eid newD
    if oldD = newD then w1
    else
      let lids := (linesOfExp w1 eid).map (fun l => l.id)
      let w2 := lids.foldl (fun wa lid => replacePrimaryDriver env wa lid oldD newD) w1
      match findExp w2 eid with
      | none => w2
      | some e2 =>
        if e2.defaultVehicle = none then
          match env.driverDefault newD with
          | some v => setExpDefaultVehicle w2 eid (some v)
          | none => w2
        else w2

/-! ## Pre-loaded validation (`_validate_before_loaded`) -/

/-- The two `UserError`s `_validate_before_loaded` can raise, carrying the
offending delivery and the drivers at fault. -/
inductive LoadError where
  | missingAlloc (picking : Nat) (drivers : List Nat)
  | zeroAlloc (picking : Nat) (drivers : List Nat)
deriving DecidableEq, Repr

/-- `alloc_by_driver[driver]`: the dict comprehension keeps the last
allocation per driver. -/
def lastAllocFor (la : List Alloc) (d : Nat) : Option Alloc :=
  (la.filter (fun a => a.driver = d)).getLast?

/-- The check `_validate_before_loaded` performs on one line: skipped for
at most one participant; otherwise every participant needs an
allocation, and every participant's allocation needs positive boxes or
weight. -/
def validateLineBeforeLoaded (w : World) (l : Line) : Option LoadError :=
  if l.participants.length ≤ 1 then none
  else
    let la := allocsOfLine w l.id
    let missing := l.participants.filter (fun d => ¬ la.any (fun a => a.driver = d))
    if missing.isEmpty then
      let notFilled := l.participants.filter (fun d =>
        match lastAllocFor la d with
        | some a => a.boxes ≤ 0 ∧ a.weight ≤ 0
        | none => false)
      if notFilled.isEmpty then none else some (LoadError.zeroAlloc l.pickingId notFilled)
    else some (LoadError.missingAlloc l.pickingId missing)

/-- The first error raised while iterating the lines. -/
def firstLineError (w : World) : List Line → Option LoadError
  | [] => none
  | l :: ls =>
    match validateLineBeforeLoaded w l with
    | some e => some e
    | none => firstLineError w ls

/-- `DeliveryExpedition._validate_before_loaded`: iterate `line_ids` (in
`_order = "sequence, id"`) and raise at the first offending line. -/
def validateBeforeLoaded (w : World) (eid : Nat) : Option LoadError :=
  firstLineError w (sortLines (linesOfExp w eid))

/-- Raw state write (`_set_state` without the chatter logging). -/
def setExpState (w : World) (eid : Nat) (s : ExpState) : World :=
  { w with expeditions := w.expeditions.map (fun e =>
      if e.id = eid then { e with state := s } else e) }

/-- `action_set_state_loaded` on one expedition: validate, then move to
`loaded`; a validation error aborts the transaction with the world
unchanged. -/
def actionSetStateLoaded (w : World) (eid : Nat) : World × Option LoadError :=
  match validateBeforeLoaded w eid with
  | some e => (w, some e)
  | none => (setExpState w eid ExpState.loaded, none)

/-! ## Locked-state edit policy -/

/-- Fields of `delivery.expedition` a write may touch, as far as the lock
guard is concerned. -/
inductive ExpField where
  | driverField
  | defaultVehicleField
  | otherField
deriving DecidableEq, Repr

/-- Fields of `delivery.expedition.line` a write may touch. -/
inductive LineField where
  | participantsField
  | allocationsField
  | vehicleField
  | otherLineField
deriving DecidableEq, Repr

/-- The guard inside `DeliveryExpedition.write`: raise when the
expedition is locked, the actor is not a dispatcher, and the vals touch
`driver_id` or `default_vehicle_id`. -/
def expWriteBlocked (locked dispatcher : Bool) (fields : List ExpField) : Bool :=
  locked && !dispatcher &&
    (fields.contains ExpField.driverField || fields.contains ExpField.defaultVehicleField)

/-- `DeliveryExpeditionLine._check_locked_edit`: raise when the owning
expedition is locked, the actor is not a dispatcher, and the vals touch
`participant_driver_ids`, `allocation_ids` or `vehicle_id`. -/
def lineWriteBlocked (locked dispatcher : Bool) (fields : List LineField) : Bool :=
  locked && !dispatcher &&
    (fields.contains LineField.participantsField ||
     fields.contains LineField.allocationsField ||
     fields.contains LineField.vehicleField)

/-- The guard in `DeliveryExpeditionAllocation.write` and `.unlink`:
raise whenever the expedition is locked and the actor is not a
dispatcher. -/
def allocEditBlocked (locked dispatcher : Bool) : Bool :=
  locked && !dispatcher

/-- A guarded write against a record in a given state: the result world
and whether a policy error was raised (raising leaves the world
unchanged). -/
def guardedWrite (blocked : Bool) (w : World) (apply : World → World) : World × Bool :=
  if blocked then (w, true) else (apply w, false)

/-! ## Allocation validation constraints -/

/-- `_check_non_negative`: boxes and weight must not be negative. -/
def allocNonNegOk (a : Alloc) : Bool :=
  0 ≤ a.boxes ∧ 0 ≤ a.weight

/-- `_check_driver_is_participant`: the allocation's driver must be one of
the participants of its line. -/
def allocParticipantOk (w : World) (a : Alloc) : Bool :=
  match findLine w a.lineId with
  | some l => a.driver ∈ l.participants
  | none => false

/-- The SQL constraint `UNIQUE(line_id, driver_id)` for one row: at most
one allocation of the table carries this row's `(line, driver)` key. -/
def allocUniqueOk (w : World) (a : Alloc) : Bool :=
  (w.allocs.filter (fun b => b.lineId = a.lineId ∧ b.driver = a.driver)).length ≤ 1

/-- All allocation rows of the table satisfy the three constraints. -/
def allocTableOk (w : World) : Bool :=
  w.allocs.all (fun a => allocNonNegOk a && allocParticipantOk w a && allocUniqueOk w a)

/-- An allocation create followed by the constraint checks on the new
row: a violating create is rejected (transaction aborted, table
unchanged). -/
def allocCreateChecked (w : World) (a : Alloc) : World × Bool :=
  let w1 : World := { w with allocs := w.allocs ++ [a] }
  if allocNonNegOk a && allocParticipantOk w1 a && allocUniqueOk w1 a
  then (w1, false) else (w, true)

/-- The row produced by an allocation write of `driver_id`, `boxes` and/or
`weight_kg` (absent values keep the old field). -/
def allocWriteNew (a0 : Alloc) (nd : Option Nat) (nb nw : Option ℚ) : Alloc :=
  { a0 with
    driver := nd.getD a0.driver
    boxes := nb.getD a0.boxes
    weight := nw.getD a0.weight }

/-- The table after rewriting the row keyed `(lid, drv)` to `a1`. -/
def allocWriteTable (w : World) (lid drv : Nat) (a1 : Alloc) : World :=
  { w with
    allocs := updateFirst (fun a => a.lineId = lid ∧ a.driver = drv)
        (fun _ => a1) w.allocs }

/-- An allocation write (of `driver_id`, `boxes` and/or `weight_kg`) on the
first row with the given key, followed by the constraint checks on the
updated row: a violating write is rejected. -/
def allocWriteChecked (w : World) (lid drv : Nat) (newDriver : Option Nat)
    (newBoxes newWeight : Option ℚ) : World × Bool :=
  match (allocsOfLine w lid).find? (fun a => a.driver = drv) with
  | none => (w, false)
  | some a0 =>
    let a1 := allocWriteNew a0 newDriver newBoxes newWeight
    let w1 := allocWriteTable w lid drv a1
    if allocNonNegOk a1 && allocParticipantOk w1 a1 && allocUniqueOk w1 a1
    then (w1, false) else (w, true)

/-! ## Vehicle resolution -/

/-- `DeliveryExpeditionLine._get_driver_vehicle_id`: the driver's explicit
default vehicle, else a fleet vehicle whose recorded driver matches the
driver's partner. -/
def getDriverVehicleId (env : Env) (d : Nat) : Option Nat :=
  (env.driverDefault d).orElse (fun _ => env.fleetVehicleOf d)

/-- The effective-vehicle computation of `_ensure_driver_tasks`:
allocation vehicle `or` line vehicle `or` expedition default `or` driver
default `or` `_get_driver_vehicle_id` `or` none. -/
def taskVehicleEnsure (env : Env) (w : World) (l : Line) (d : Nat) : Option Nat :=
  let alloc := (allocsOfLine w l.id).find? (fun a => a.driver = d)
  ((alloc.bind (fun a => a.vehicle)).orElse (fun _ =>
    (l.vehicle.orElse (fun _ =>
      (((findExp w l.expeditionId).bind (fun e => e.defaultVehicle)).orElse (fun _ =>
        ((env.driverDefault d).orElse (fun _ => getDriverVehicleId env d))))))))

/-- The effective-vehicle computation of `_update_tasks_vehicle`:
allocation vehicle `or` line vehicle `or` expedition default `or` driver
default `or` none — with no fleet-vehicle lookup. -/
def taskVehicleUpdate (env : Env) (w : World) (l : Line) (d : Nat) : Option Nat :=
  let alloc := (allocsOfLine w l.id).find? (fun a => a.driver = d)
  ((alloc.bind (fun a => a.vehicle)).orElse (fun _ =>
    (l.vehicle.orElse (fun _ =>
      (((findExp w l.expeditionId).bind (fun e => e.defaultVehicle)).orElse (fun _ =>
        env.driverDefault d))))))

/-- First non-empty value of a chain of optional vehicles (the spec's
fallback-order wording). -/
def firstSome : List (Option Nat) → Option Nat
  | [] => none
  | o :: os =>
    match o with
    | some v => some v
    | none => firstSome os

/-- The fallback chain exactly as the specification lists it for a
`(Line, driver)` pair. -/
def specVehicleChain (env : Env) (w : World) (l : Line) (d : Nat) : List (Option Nat) :=
  [((allocsOfLine w l.id).find? (fun a => a.driver = d)).bind (fun a => a.vehicle),
   l.vehicle,
   (findExp w l.expeditionId).bind (fun e => e.defaultVehicle),
   env.driverDefault d,
   env.fleetVehicleOf d]

/-! ## Driver mirroring to external documents -/

/-- `stock.picking` states as far as the sync guard reads them. -/
inductive PickingState where
  | draft
  | confirmed
  | assigned
  | donePicking
  | cancel
deriving DecidableEq, Repr

/-- `account.move` states as far as the sync reads them. -/
inductive MoveState where
  | draft
  | posted
  | cancel
deriving DecidableEq, Repr

/-- The delivery order a line points to. -/
structure Picking where
  state : PickingState
  deliveryDriver : Option Nat
deriving DecidableEq, Repr

/-- The originating sales order. -/
structure SaleOrder where
  deliveryDriver : Option Nat
deriving DecidableEq, Repr

/-- One linked customer invoice. -/
structure Invoice where
  state : MoveState
  deliveryDriver : Option Nat
deriving DecidableEq, Repr

/-- The external documents reachable from one line: its picking, the
picking's sale order and the sale order's invoices (empty when there is
no sale order). -/
structure Docs where
  picking : Picking
  sale : Option SaleOrder
  invoices : List Invoice
deriving DecidableEq, Repr

/-- `DeliveryExpeditionLine._sync_driver_to_documents`: refuse when the
picking is done or cancelled; otherwise mirror the driver to the
picking, to the sale order when present, and to the draft invoices
only. -/
def syncDriverToDocuments (newD : Nat) (docs : Docs) : Except Unit Docs :=
  if docs.picking.state = PickingState.donePicking ∨ docs.picking.state = PickingState.cancel then
    Except.error ()
  else
    Except.ok
      { picking := { docs.picking with deliveryDriver := some newD }
        sale := docs.sale.map (fun s => { s with deliveryDriver := some newD })
        invoices :=
          match docs.sale with
          | none => docs.invoices
          | some _ => docs.invoices.map (fun i =>
              if i.state = MoveState.draft then { i with deliveryDriver := some newD } else i) }

/-! ## Concrete evaluation worlds and auxiliary predicates -/

/-- A concrete document set: picking assigned, sale present, one draft and
one posted invoice. -/
def docsC9 : Docs :=
  ⟨⟨PickingState.assigned, some 10⟩, some ⟨some 10⟩,
   [⟨MoveState.draft, some 10⟩, ⟨MoveState.posted, some 10⟩]⟩

/-- The result documents of syncing driver 11 into `docsC9`. -/
def docsC9result : Docs :=
  ⟨⟨PickingState.assigned, some 11⟩, some ⟨some 11⟩,
   [⟨MoveState.draft, some 11⟩, ⟨MoveState.posted, some 10⟩]⟩

/-- Environment in which driver 5 has no default vehicle but fleet vehicle
7 records driver 5 as its driver. -/
def envFleetOnly : Env :=
  ⟨fun _ => none, fun d => if d = 5 then some 7 else none⟩

/-- A line for driver 5 with no vehicle override anywhere in the chain. -/
def lineC8 : Line := ⟨2, 1, 1, 100, none, [5]⟩

/-- World containing `lineC8` on an expedition without default vehicle and
with no allocation vehicle. -/
def worldC8 : World :=
  ⟨[⟨1, 0, 0, 5, none, ExpState.planned, none⟩], [lineC8], [⟨2, 5, none, 1, 1⟩], 3⟩

/-- The specification's per-line failure condition for the pre-loaded
validation: more than one participant driver, and some participant
missing an allocation or holding an allocation with neither positive
boxes nor positive weight. -/
def lineBad (w : World) (l : Line) : Prop :=
  1 < l.participants.length ∧
    ((∃ d ∈ l.participants, ∀ a ∈ allocsOfLine w l.id, ¬ a.driver = d) ∨
     (∃ d ∈ l.participants, ∃ a ∈ allocsOfLine w l.id,
        a.driver = d ∧ a.boxes ≤ 0 ∧ a.weight ≤ 0))

/-- Scenario 2 of the specification: a line with two participants and no
allocations at all. -/
def worldC2 : World :=
  ⟨[⟨1, 0, 0, 10, none, ExpState.ready, none⟩],
   [⟨2, 1, 1, 100, none, [10, 11]⟩],
   [], 3⟩

/-- Environment with no default vehicles and no fleet records. -/
def envPlain : Env := ⟨fun _ => none, fun _ => none⟩

/-- Expedition 1 of driver 10 with one line (picking 100) on which driver
10 has an allocation of 5 boxes and 2 kg. -/
def worldC1 : World :=
  ⟨[⟨1, 0, 0, 10, none, ExpState.planned, none⟩],
   [⟨2, 1, 1, 100, none, [10]⟩],
   [⟨2, 10, none, 5, 2⟩], 3⟩

/-- A valid one-line table: driver 10 allocated on line 2. -/
def worldC5 : World :=
  ⟨[⟨1, 0, 0, 10, none, ExpState.planned, none⟩],
   [⟨2, 1, 1, 100, none, [10]⟩],
   [⟨2, 10, none, 3, 1⟩], 3⟩

/-- Well-formedness of the store. -/
structure WInv (w : World) : Prop where
  expBound : ∀ e ∈ w.expeditions, e.id < w.nextId
  lineBound : ∀ l ∈ w.lines, l.id < w.nextId
  expNodup : (w.expeditions.map (fun e => e.id)).Nodup
  lineNodup : (w.lines.map (fun l => l.id)).Nodup
  lineExpValid : ∀ l ∈ w.lines, ∃ e ∈ w.expeditions, e.id = l.expeditionId
  partAlloc : ∀ l ∈ w.lines, ∀ d ∈ l.participants,
    ∃ a ∈ w.allocs, a.lineId = l.id ∧ a.driver = d

/-- Driver d owns a single-driver line for picking pid in its own
(company, date) expedition, with an allocation row on that line. -/
def ExtraRelocated (w : World) (c dt pid d : Nat) : Prop :=
  ∃ e ∈ w.expeditions, e.company = c ∧ e.date = dt ∧ e.driverId = d ∧
    ∃ l ∈ w.lines, l.expeditionId = e.id ∧ l.pickingId = pid ∧ l.participants = [d] ∧
      ∃ a ∈ w.allocs, a.lineId = l.id ∧ a.driver = d

/-- The stable identity of a line: owning expedition, picking, participants. -/
def lineCore (w : World) (i : Nat) : Option (Nat × Nat × List Nat) :=
  (findLine w i).map (fun l => (l.expeditionId, l.pickingId, l.participants))

/-- Counterexample world. -/
def worldC3 : World :=
  ⟨[⟨1, 0, 0, 10, none, ExpState.planned, none⟩],
   [⟨2, 1, 1, 100, none, [10, 11]⟩],
   [⟨2, 10, none, 3, 1⟩, ⟨2, 11, none, 5, 2⟩], 3⟩

/-! # Theorems -/

/-- Helper: `stepBackOne` on a non-`planned`, non-`hold` record. -/
theorem actionStepBack_cons_forward (e : StepExp) (rest : List StepExp)
    (h1 : e.state ≠ ExpState.planned) (h2 : e.state ≠ ExpState.hold) :
    actionStepBack (e :: rest) =
      { e with state := stepBackForward e.state } :: actionStepBack rest := by
  simp [actionStepBack, h1, h2]

/-- C7: on a single expedition, `action_step_back` is a no-op from
`planned`; from `hold` it returns to the remembered previous state, or
`planned` when none is recorded; and from each other state it moves to
the immediately preceding state of the fixed flow
planned → preparing → ready → loaded → dispatched → delivered → done. -/
theorem C7_step_back_single :
    (∀ p, actionStepBack [⟨ExpState.planned, p⟩] = [⟨ExpState.planned, p⟩]) ∧
    (∀ p, actionStepBack [⟨ExpState.hold, p⟩] = [⟨p.getD ExpState.planned, p⟩]) ∧
    (∀ p, actionStepBack [⟨ExpState.preparing, p⟩] = [⟨ExpState.planned, p⟩]) ∧
    (∀ p, actionStepBack [⟨ExpState.ready, p⟩] = [⟨ExpState.preparing, p⟩]) ∧
    (∀ p, actionStepBack [⟨ExpState.loaded, p⟩] = [⟨ExpState.ready, p⟩]) ∧
    (∀ p, actionStepBack [⟨ExpState.dispatched, p⟩] = [⟨ExpState.loaded, p⟩]) ∧
    (∀ p, actionStepBack [⟨ExpState.delivered, p⟩] = [⟨ExpState.dispatched, p⟩]) ∧
    (∀ p, actionStepBack [⟨ExpState.done, p⟩] = [⟨ExpState.delivered, p⟩]) :=
  ⟨fun _ => rfl, fun _ => rfl, fun _ => rfl, fun _ => rfl,
   fun _ => rfl, fun _ => rfl, fun _ => rfl, fun _ => rfl⟩

/-- C10: `action_step_back` over several records: records are processed in
order, and the `return` inside the `hold` branch makes the whole call
stop at the first record on hold — that record is restored and every
record after it is left untouched; when no record is on hold, every
record of the collection is stepped back. -/
theorem C10_step_back_first_hold_stops :
    (∀ l : List StepExp, (∀ e ∈ l, e.state ≠ ExpState.hold) →
      actionStepBack l = l.map stepBackOne) ∧
    (∀ pre (x : StepExp) post, (∀ e ∈ pre, e.state ≠ ExpState.hold) →
      x.state = ExpState.hold →
      actionStepBack (pre ++ x :: post) =
        pre.map stepBackOne ++ { x with state := x.prevState.getD ExpState.planned } :: post) := by
  constructor
  · intro l
    induction l with
    | nil => intro _; rfl
    | cons e rest ih =>
      intro h
      have he := h e (List.mem_cons_self e rest)
      have hrest := ih (fun x hx => h x (List.mem_cons_of_mem e hx))
      by_cases hp : e.state = ExpState.planned
      · simp [actionStepBack, hp, stepBackOne, hrest]
      · rw [actionStepBack_cons_forward e rest hp he, hrest]
        simp [stepBackOne, hp, he]
  · intro pre x post hpre hx
    induction pre with
    | nil => simp [actionStepBack, hx, stepBackOne]
    | cons e rest ih =>
      have he := hpre e (List.mem_cons_self e rest)
      have hrest := ih (fun y hy => hpre y (List.mem_cons_of_mem e hy))
      by_cases hp : e.state = ExpState.planned
      · have hstep : actionStepBack ((e :: rest) ++ x :: post) =
            e :: actionStepBack (rest ++ x :: post) := by
          simp [actionStepBack, hp]
        rw [hstep, hrest]
        simp [stepBackOne, hp]
      · rw [List.cons_append, actionStepBack_cons_forward e _ hp he, hrest]
        simp [stepBackOne, hp, he]

/-- C10 witness: the second part applied at a concrete collection. -/
theorem C10_step_back_first_hold_stops_witness :
    actionStepBack
      [⟨ExpState.ready, none⟩, ⟨ExpState.hold, some ExpState.loaded⟩, ⟨ExpState.done, none⟩] =
      [⟨ExpState.preparing, none⟩, ⟨ExpState.loaded, some ExpState.loaded⟩, ⟨ExpState.done, none⟩] := by
  have h := C10_step_back_first_hold_stops.2 [⟨ExpState.ready, none⟩]
    ⟨ExpState.hold, some ExpState.loaded⟩ [⟨ExpState.done, none⟩]
    (by intro e he; simp at he; simp [he]) rfl
  simpa [stepBackOne, stepBackForward, stateFlow] using h

/-- C9: mirroring the responsible driver to the external documents fails
exactly when the picking is done or cancelled; on success the driver is
written to the picking, to the sale order when present, and to exactly
the draft invoices — invoices in any other state are left unchanged
(and without a sale order no invoice is linked, hence none touched). -/
theorem C9_sync_driver_to_documents (newD : Nat) (docs : Docs) :
    (syncDriverToDocuments newD docs = Except.error () ↔
      docs.picking.state = PickingState.donePicking ∨
      docs.picking.state = PickingState.cancel) ∧
    (∀ r, syncDriverToDocuments newD docs = Except.ok r →
      r.picking.deliveryDriver = some newD ∧
      r.picking.state = docs.picking.state ∧
      r.sale = docs.sale.map (fun s => { s with deliveryDriver := some newD }) ∧
      (docs.sale = none → r.invoices = docs.invoices) ∧
      (docs.sale ≠ none →
        List.Forall₂ (fun (i j : Invoice) =>
          (i.state = MoveState.draft → j = { i with deliveryDriver := some newD }) ∧
          (i.state ≠ MoveState.draft → j = i)) docs.invoices r.invoices)) := by
  constructor
  · unfold syncDriverToDocuments
    by_cases h : docs.picking.state = PickingState.donePicking ∨
        docs.picking.state = PickingState.cancel
    · simp [h]
    · simp [h]
  · intro r hr
    unfold syncDriverToDocuments at hr
    by_cases h : docs.picking.state = PickingState.donePicking ∨
        docs.picking.state = PickingState.cancel
    · simp [h] at hr
    · simp only [h, if_false, Except.ok.injEq] at hr
      subst hr
      refine ⟨rfl, rfl, rfl, ?_, ?_⟩
      · intro hs; simp [hs]
      · intro hs
        match hsale : docs.sale with
        | none => exact absurd hsale hs
        | some s =>
          simp only [hsale]
          have : ∀ i ∈ docs.invoices,
              (i.state = MoveState.draft →
                (if i.state = MoveState.draft then { i with deliveryDriver := some newD } else i) =
                  { i with deliveryDriver := some newD }) ∧
              (i.state ≠ MoveState.draft →
                (if i.state = MoveState.draft then { i with deliveryDriver := some newD } else i) = i) := by
            intro i _
            by_cases hd : i.state = MoveState.draft
            · simp [hd]
            · simp [hd]
          exact List.forall₂_map_right_iff.mpr (List.forall₂_same.mpr this)



/-- C9 witness: the theorem's success case applied at `docsC9`. -/
theorem C9_sync_driver_to_documents_witness :
    docsC9result.picking.deliveryDriver = some 11 ∧
    docsC9result.picking.state = docsC9.picking.state ∧
    docsC9result.sale = docsC9.sale.map (fun s => { s with deliveryDriver := some 11 }) ∧
    (docsC9.sale = none → docsC9result.invoices = docsC9.invoices) ∧
    (docsC9.sale ≠ none →
      List.Forall₂ (fun (i j : Invoice) =>
        (i.state = MoveState.draft → j = { i with deliveryDriver := some 11 }) ∧
        (i.state ≠ MoveState.draft → j = i)) docsC9.invoices docsC9result.invoices) :=
  (C9_sync_driver_to_documents 11 docsC9).2 docsC9result rfl

/-- Helper: the five-step `or`-chain of `_ensure_driver_tasks` (whose last
two steps both start with the driver default) equals the first non-empty
element of the five-element fallback list. -/
theorem orChain_ensure (a b c d e : Option Nat) :
    (a.orElse (fun _ => b.orElse (fun _ => c.orElse (fun _ =>
      d.orElse (fun _ => d.orElse (fun _ => e)))))) = firstSome [a, b, c, d, e] := by
  cases a <;> cases b <;> cases c <;> cases d <;> cases e <;> rfl

/-- Helper: the four-step `or`-chain of `_update_tasks_vehicle` equals the
first non-empty element of the four-element fallback list. -/
theorem orChain_update (a b c d : Option Nat) :
    (a.orElse (fun _ => b.orElse (fun _ => c.orElse (fun _ => d)))) =
      firstSome [a, b, c, d] := by
  cases a <;> cases b <;> cases c <;> cases d <;> rfl

/-- C8 (amended): `_ensure_driver_tasks` resolves the task vehicle as the
first non-empty value of the claimed chain (allocation vehicle, line
override, expedition default, driver default, matching fleet vehicle),
but `_update_tasks_vehicle` — also a place where the task vehicle is
recomputed — applies the same chain without the final fleet-vehicle
lookup; both resolutions are pure functions of their inputs. -/
theorem C8_vehicle_chain_amended (env : Env) (w : World) (l : Line) (d : Nat) :
    taskVehicleEnsure env w l d = firstSome (specVehicleChain env w l d) ∧
    taskVehicleUpdate env w l d = firstSome ((specVehicleChain env w l d).dropLast) := by
  constructor
  · show (_ : Option Nat).orElse _ = _
    unfold specVehicleChain getDriverVehicleId
    exact orChain_ensure _ _ _ _ _
  · show (_ : Option Nat).orElse _ = _
    unfold specVehicleChain
    exact orChain_update _ _ _ _




/-- C8 counterexample: for `(lineC8, driver 5)` the claimed five-step chain
(and `_ensure_driver_tasks`) resolves the fleet vehicle 7, but
`_update_tasks_vehicle` — one of the places where the task vehicle is
recomputed — resolves no vehicle, so the same chain is not applied at
every recomputation site. -/
theorem C8_vehicle_chain_counterexample :
    firstSome (specVehicleChain envFleetOnly worldC8 lineC8 5) = some 7 ∧
    taskVehicleEnsure envFleetOnly worldC8 lineC8 5 = some 7 ∧
    taskVehicleUpdate envFleetOnly worldC8 lineC8 5 = none := by
  refine ⟨rfl, rfl, rfl⟩

/-- C4: an expedition is locked exactly in states loaded, dispatched,
delivered and done; while locked, a non-dispatcher write touching the
main driver or default vehicle (expedition), participants, allocations
or vehicle override (line), or any allocation edit or delete, raises a
policy error — and a raising guard aborts with the store unchanged —
while a dispatcher-capable actor, or any actor on an unlocked
expedition, passes every guard. -/
theorem C4_locked_edit_policy :
    (∀ s, isLockedState s = true ↔
      (s = ExpState.loaded ∨ s = ExpState.dispatched ∨
       s = ExpState.delivered ∨ s = ExpState.done)) ∧
    (∀ (locked dispatcher : Bool) (fields : List ExpField),
      expWriteBlocked locked dispatcher fields = true ↔
        (locked = true ∧ dispatcher = false ∧
          (ExpField.driverField ∈ fields ∨ ExpField.defaultVehicleField ∈ fields))) ∧
    (∀ (locked dispatcher : Bool) (fields : List LineField),
      lineWriteBlocked locked dispatcher fields = true ↔
        (locked = true ∧ dispatcher = false ∧
          (LineField.participantsField ∈ fields ∨ LineField.allocationsField ∈ fields ∨
           LineField.vehicleField ∈ fields))) ∧
    (∀ (locked dispatcher : Bool),
      allocEditBlocked locked dispatcher = true ↔ (locked = true ∧ dispatcher = false)) ∧
    (∀ (b : Bool) (w : World) (f : World → World),
      (b = true → guardedWrite b w f = (w, true)) ∧
      (b = false → guardedWrite b w f = (f w, false))) := by
  refine ⟨?_, ?_, ?_, ?_, ?_⟩
  · intro s; cases s <;> simp [isLockedState, lockedStates]
  · intro locked dispatcher fields
    cases locked <;> cases dispatcher <;>
      simp [expWriteBlocked, List.contains, List.elem_iff]
  · intro locked dispatcher fields
    cases locked <;> cases dispatcher <;>
      simp [lineWriteBlocked, List.contains, List.elem_iff, or_assoc]
  · intro locked dispatcher
    cases locked <;> cases dispatcher <;> simp [allocEditBlocked]
  · intro b w f
    cases b <;> simp [guardedWrite]

/-- C4 witness: the guards evaluated at concrete inputs — a locked
non-dispatcher driver write is blocked and leaves the store unchanged, a
dispatcher passes, and unlocked writes pass. -/
theorem C4_locked_edit_policy_witness :
    isLockedState ExpState.loaded = true ∧
    expWriteBlocked true false [ExpField.driverField] = true ∧
    guardedWrite true (⟨[], [], [], 0⟩ : World) id = ((⟨[], [], [], 0⟩ : World), true) ∧
    expWriteBlocked true true [ExpField.driverField] = false ∧
    lineWriteBlocked false false [LineField.participantsField] = false ∧
    allocEditBlocked true false = true := by
  refine ⟨(C4_locked_edit_policy.1 ExpState.loaded).mpr (Or.inl rfl),
    (C4_locked_edit_policy.2.1 true false [ExpField.driverField]).mpr
      ⟨rfl, rfl, Or.inl (by simp)⟩,
    (C4_locked_edit_policy.2.2.2.2 true (⟨[], [], [], 0⟩ : World) id).1 rfl,
    ?_, ?_, (C4_locked_edit_policy.2.2.2.1 true false).mpr ⟨rfl, rfl⟩⟩
  · by_contra h
    have h' := (C4_locked_edit_policy.2.1 true true [ExpField.driverField]).mp
      (by revert h; cases hb : expWriteBlocked true true [ExpField.driverField] <;> simp)
    exact absurd h'.2.1 (by decide)
  · by_contra h
    have h' := (C4_locked_edit_policy.2.2.1 false false [LineField.participantsField]).mp
      (by revert h; cases hb : lineWriteBlocked false false [LineField.participantsField] <;> simp)
    exact absurd h'.1 (by decide)

/-- Helper: inserting into the sorted list yields a permutation. -/
theorem insertLine_perm (x : Line) (xs : List Line) :
    (insertLine x xs).Perm (x :: xs) := by
  induction xs with
  | nil => simp [insertLine]
  | cons y ys ih =>
    by_cases h : lineLe x y
    · simp [insertLine, h]
    · simp only [insertLine, h, if_false]
      exact (List.Perm.cons y ih).trans (List.Perm.swap x y ys)

/-- Helper: `sortLines` permutes its input. -/
theorem sortLines_perm (ls : List Line) : (sortLines ls).Perm ls := by
  induction ls with
  | nil => simp [sortLines]
  | cons x xs ih =>
    exact (insertLine_perm x (sortLines xs)).trans (List.Perm.cons x ih)

/-- Helper: membership is preserved by `sortLines`. -/
theorem mem_sortLines {l : Line} {ls : List Line} : l ∈ sortLines ls ↔ l ∈ ls :=
  (sortLines_perm ls).mem_iff

/-- Helper: `firstLineError` is `none` exactly when every line validates. -/
theorem firstLineError_eq_none_iff (w : World) (ls : List Line) :
    firstLineError w ls = none ↔ ∀ l ∈ ls, validateLineBeforeLoaded w l = none := by
  induction ls with
  | nil => simp [firstLineError]
  | cons l rest ih =>
    cases h : validateLineBeforeLoaded w l with
    | some e => simp [firstLineError, h]
    | none => simp [firstLineError, h, ih]

/-- Helper: a `firstLineError` result comes from some line of the list. -/
theorem firstLineError_some (w : World) (ls : List Line) (err : LoadError)
    (h : firstLineError w ls = some err) :
    ∃ l ∈ ls, validateLineBeforeLoaded w l = some err := by
  induction ls with
  | nil => simp [firstLineError] at h
  | cons l rest ih =>
    rw [firstLineError] at h
    cases hv : validateLineBeforeLoaded w l with
    | some e =>
      rw [hv] at h
      simp only at h
      exact ⟨l, List.mem_cons_self l rest, by rw [hv, h]⟩
    | none =>
      rw [hv] at h
      simp only at h
      obtain ⟨l', hmem, hl'⟩ := ih h
      exact ⟨l', List.mem_cons_of_mem l hmem, hl'⟩

/-- Helper: pair-key uniqueness on a list whose members all share the same
line id gives driver uniqueness. -/
theorem drivers_nodup_of_pairs (la : List Alloc) (lid : Nat)
    (hl : ∀ a ∈ la, a.lineId = lid)
    (h : (la.map (fun a => (a.lineId, a.driver))).Nodup) :
    (la.map (fun a => a.driver)).Nodup := by
  induction la with
  | nil => simp
  | cons a as ih =>
    simp only [List.map_cons, List.nodup_cons] at h ⊢
    refine ⟨?_, ih (fun b hb => hl b (List.mem_cons_of_mem a hb)) h.2⟩
    intro hmem
    obtain ⟨b, hb, hbd⟩ := List.mem_map.mp hmem
    exact h.1 (List.mem_map.mpr ⟨b, hb, by
      rw [hl b (List.mem_cons_of_mem a hb), hl a (List.mem_cons_self a as), hbd]⟩)

/-- Helper: global `(line, driver)` uniqueness restricted to one line's
allocations gives driver uniqueness there. -/
theorem allocsOfLine_drivers_nodup (w : World) (lid : Nat)
    (h : (w.allocs.map (fun a => (a.lineId, a.driver))).Nodup) :
    ((allocsOfLine w lid).map (fun a => a.driver)).Nodup := by
  apply drivers_nodup_of_pairs (allocsOfLine w lid) lid
  · intro a ha
    have := (List.mem_filter.mp ha).2
    simpa using this
  · exact List.Nodup.sublist
      (List.Sublist.map _ (List.filter_sublist w.allocs)) h

/-- Helper: with unique drivers, the allocation filter for a present driver
is that driver's singleton. -/
theorem filter_driver_singleton (la : List Alloc) (d : Nat) (a : Alloc)
    (hn : (la.map (fun x => x.driver)).Nodup) (ha : a ∈ la) (hd : a.driver = d) :
    la.filter (fun b => b.driver = d) = [a] := by
  induction la with
  | nil => cases ha
  | cons x xs ih =>
    simp only [List.map_cons, List.nodup_cons] at hn
    rcases List.mem_cons.mp ha with rfl | hmem
    · have hnil : xs.filter (fun b => b.driver = d) = [] := by
        apply List.filter_eq_nil_iff.mpr
        intro b hb
        simp only [decide_eq_true_eq]
        intro hbd
        exact hn.1 (List.mem_map.mpr ⟨b, hb, by rw [hbd, hd]⟩)
      simp [List.filter_cons, hd, hnil]
    · have hxd : ¬(x.driver = d) := by
        intro hx
        exact hn.1 (List.mem_map.mpr ⟨a, hmem, by rw [hd, hx]⟩)
      simp [List.filter_cons, hxd, ih hn.2 hmem]

/-- Helper: with unique drivers, `lastAllocFor` returns exactly the member
allocation of that driver. -/
theorem lastAllocFor_eq (la : List Alloc) (d : Nat) (a : Alloc)
    (hn : (la.map (fun x => x.driver)).Nodup) (ha : a ∈ la) (hd : a.driver = d) :
    lastAllocFor la d = some a := by
  unfold lastAllocFor
  rw [filter_driver_singleton la d a hn ha hd]
  rfl

/-- Helper: a `lastAllocFor` result is a member allocation of that driver. -/
theorem lastAllocFor_mem (la : List Alloc) (d : Nat) (a : Alloc)
    (h : lastAllocFor la d = some a) : a ∈ la ∧ a.driver = d := by
  unfold lastAllocFor at h
  have hmem := List.mem_of_mem_getLast? h
  have := List.mem_filter.mp hmem
  exact ⟨this.1, by simpa using this.2⟩


/-- Helper: with unique drivers per line, the line check fails exactly on
the specification's failure condition. -/
theorem validateLine_isSome_iff (w : World) (l : Line)
    (huniq : ((allocsOfLine w l.id).map (fun a => a.driver)).Nodup) :
    (validateLineBeforeLoaded w l).isSome ↔ lineBad w l := by
  unfold validateLineBeforeLoaded lineBad
  by_cases hlen : l.participants.length ≤ 1
  · simp only [if_pos hlen, Option.isSome_none, Bool.false_eq_true, false_iff, not_and]
    intro hcontra
    omega
  · rw [if_neg hlen]
    have hlen' : 1 < l.participants.length := by omega
    cases hmiss : (l.participants.filter
        (fun d => ¬ (allocsOfLine w l.id).any (fun a => a.driver = d))).isEmpty with
    | false =>
      simp only [hmiss, Bool.false_eq_true, if_false, Option.isSome_some, true_iff]
      refine ⟨hlen', Or.inl ?_⟩
      obtain ⟨d, hd⟩ := List.exists_mem_of_ne_nil _ (List.isEmpty_eq_false.mp hmiss)
      have := List.mem_filter.mp hd
      refine ⟨d, this.1, ?_⟩
      intro a ha had
      have h2 := this.2
      simp only [decide_eq_true_eq] at h2
      exact h2 (List.any_eq_true.mpr ⟨a, ha, by simpa using had⟩)
    | true =>
      have hall : ∀ d ∈ l.participants, ∃ a ∈ allocsOfLine w l.id, a.driver = d := by
        intro d hd
        have := List.filter_eq_nil_iff.mp (List.isEmpty_iff.mp hmiss) d hd
        simp only [decide_eq_true_eq, not_not] at this
        obtain ⟨a, ha, hap⟩ := List.any_eq_true.mp this
        exact ⟨a, ha, by simpa using hap⟩
      simp only [hmiss, if_true]
      cases hnf : (l.participants.filter (fun d =>
          match lastAllocFor (allocsOfLine w l.id) d with
          | some a => a.boxes ≤ 0 ∧ a.weight ≤ 0
          | none => false)).isEmpty with
      | false =>
        simp only [Bool.false_eq_true, if_false, Option.isSome_some, true_iff]
        refine ⟨hlen', Or.inr ?_⟩
        obtain ⟨d, hd⟩ := List.exists_mem_of_ne_nil _ (List.isEmpty_eq_false.mp hnf)
        have hmem := List.mem_filter.mp hd
        refine ⟨d, hmem.1, ?_⟩
        have h2 := hmem.2
        cases hla : lastAllocFor (allocsOfLine w l.id) d with
        | none => rw [hla] at h2; simp at h2
        | some a =>
          rw [hla] at h2
          simp only [decide_eq_true_eq] at h2
          have := lastAllocFor_mem _ _ _ hla
          exact ⟨a, this.1, this.2, h2.1, h2.2⟩
      | true =>
        simp only [if_true, Option.isSome_none, Bool.false_eq_true, false_iff, not_and]
        intro _
        rw [not_or]
        constructor
        · intro ⟨d, hd, hnone⟩
          obtain ⟨a, ha, had⟩ := hall d hd
          exact hnone a ha had
        · intro ⟨d, hd, a, ha, had, hb, hw⟩
          have := List.filter_eq_nil_iff.mp (List.isEmpty_iff.mp hnf) d hd
          rw [lastAllocFor_eq _ _ _ huniq ha had] at this
          simp only [decide_eq_true_eq] at this
          exact this ⟨hb, hw⟩

/-- Helper: the exact shape of a raised line error — it carries the line's
picking and the filter of offending drivers. -/
theorem validateLine_some_cases (w : World) (l : Line) (err : LoadError)
    (h : validateLineBeforeLoaded w l = some err) :
    1 < l.participants.length ∧
    ((∃ ds, err = LoadError.missingAlloc l.pickingId ds ∧ ds ≠ [] ∧
        ds = l.participants.filter
          (fun d => ¬ (allocsOfLine w l.id).any (fun a => a.driver = d))) ∨
     (∃ ds, err = LoadError.zeroAlloc l.pickingId ds ∧ ds ≠ [] ∧
        ds = l.participants.filter (fun d =>
          match lastAllocFor (allocsOfLine w l.id) d with
          | some a => a.boxes ≤ 0 ∧ a.weight ≤ 0
          | none => false))) := by
  unfold validateLineBeforeLoaded at h
  by_cases hlen : l.participants.length ≤ 1
  · rw [if_pos hlen] at h; cases h
  · rw [if_neg hlen] at h
    refine ⟨by omega, ?_⟩
    cases hmiss : (l.participants.filter
        (fun d => ¬ (allocsOfLine w l.id).any (fun a => a.driver = d))).isEmpty with
    | false =>
      simp only [hmiss, Bool.false_eq_true, if_false, Option.some.injEq] at h
      exact Or.inl ⟨_, h.symm, List.isEmpty_eq_false.mp hmiss, rfl⟩
    | true =>
      simp only [hmiss, if_true] at h
      cases hnf : (l.participants.filter (fun d =>
          match lastAllocFor (allocsOfLine w l.id) d with
          | some a => a.boxes ≤ 0 ∧ a.weight ≤ 0
          | none => false)).isEmpty with
      | false =>
        simp only [hnf, Bool.false_eq_true, if_false, Option.some.injEq] at h
        exact Or.inr ⟨_, h.symm, List.isEmpty_eq_false.mp hnf, rfl⟩
      | true =>
        simp only [hnf, if_true] at h
        cases h

/-- C2: the pre-loaded validation fails exactly when some line of the
expedition has more than one participant driver and a participant is
missing an allocation or under-filled (boxes and weight both
non-positive); the raised error names the offending delivery and
exactly the missing / under-filled drivers; on failure the transition
aborts with the store unchanged (so the state never becomes loaded);
and a line with at most one participant never fails the check. -/
theorem C2_validate_before_loaded (w : World) (eid : Nat)
    (huniq : (w.allocs.map (fun a => (a.lineId, a.driver))).Nodup) :
    ((validateBeforeLoaded w eid).isSome ↔ ∃ l ∈ linesOfExp w eid, lineBad w l) ∧
    (∀ p ds, validateBeforeLoaded w eid = some (LoadError.missingAlloc p ds) →
      ∃ l ∈ linesOfExp w eid, l.pickingId = p ∧ 1 < l.participants.length ∧ ds ≠ [] ∧
        ∀ d, d ∈ ds ↔ (d ∈ l.participants ∧ ∀ a ∈ allocsOfLine w l.id, ¬ a.driver = d)) ∧
    (∀ p ds, validateBeforeLoaded w eid = some (LoadError.zeroAlloc p ds) →
      ∃ l ∈ linesOfExp w eid, l.pickingId = p ∧ 1 < l.participants.length ∧ ds ≠ [] ∧
        ∀ d, d ∈ ds → d ∈ l.participants ∧ ∃ a ∈ allocsOfLine w l.id,
          a.driver = d ∧ a.boxes ≤ 0 ∧ a.weight ≤ 0) ∧
    (∀ err, validateBeforeLoaded w eid = some err →
      actionSetStateLoaded w eid = (w, some err)) ∧
    (∀ l ∈ linesOfExp w eid, l.participants.length ≤ 1 →
      validateLineBeforeLoaded w l = none) := by
  have hudrv : ∀ lid, ((allocsOfLine w lid).map (fun a => a.driver)).Nodup :=
    fun lid => allocsOfLine_drivers_nodup w lid huniq
  refine ⟨?_, ?_, ?_, ?_, ?_⟩
  · constructor
    · intro hsome
      obtain ⟨err, herr⟩ := Option.isSome_iff_exists.mp hsome
      obtain ⟨l, hmem, hl⟩ := firstLineError_some w _ err herr
      exact ⟨l, mem_sortLines.mp hmem,
        (validateLine_isSome_iff w l (hudrv l.id)).mp (by rw [hl]; rfl)⟩
    · intro ⟨l, hmem, hbad⟩
      by_contra hnone
      have h0 : validateBeforeLoaded w eid = none := by
        cases h : validateBeforeLoaded w eid with
        | none => rfl
        | some e => rw [h] at hnone; simp at hnone
      have := (firstLineError_eq_none_iff w _).mp h0 l (mem_sortLines.mpr hmem)
      have hsome := (validateLine_isSome_iff w l (hudrv l.id)).mpr hbad
      rw [this] at hsome
      simp at hsome
  · intro p ds h
    obtain ⟨l, hmem, hl⟩ := firstLineError_some w _ _ h
    obtain ⟨hlen, hcase⟩ := validateLine_some_cases w l _ hl
    rcases hcase with ⟨ds', heq, hne, hds⟩ | ⟨ds', heq, _, _⟩
    · injection heq with hp hds'
      refine ⟨l, mem_sortLines.mp hmem, hp.symm, hlen, by rw [hds']; exact hne, ?_⟩
      intro d
      rw [hds', hds]
      constructor
      · intro hdm
        have := List.mem_filter.mp hdm
        refine ⟨this.1, ?_⟩
        intro a ha had
        have h2 := this.2
        simp only [decide_eq_true_eq] at h2
        exact h2 (List.any_eq_true.mpr ⟨a, ha, by simpa using had⟩)
      · intro ⟨hdp, hno⟩
        refine List.mem_filter.mpr ⟨hdp, ?_⟩
        simp only [decide_eq_true_eq]
        intro hany
        obtain ⟨a, ha, hap⟩ := List.any_eq_true.mp hany
        exact hno a ha (by simpa using hap)
    · cases heq
  · intro p ds h
    obtain ⟨l, hmem, hl⟩ := firstLineError_some w _ _ h
    obtain ⟨hlen, hcase⟩ := validateLine_some_cases w l _ hl
    rcases hcase with ⟨ds', heq, _, _⟩ | ⟨ds', heq, hne, hds⟩
    · cases heq
    · injection heq with hp hds'
      refine ⟨l, mem_sortLines.mp hmem, hp.symm, hlen, by rw [hds']; exact hne, ?_⟩
      intro d hdm
      rw [hds', hds] at hdm
      have := List.mem_filter.mp hdm
      refine ⟨this.1, ?_⟩
      have h2 := this.2
      cases hla : lastAllocFor (allocsOfLine w l.id) d with
      | none => rw [hla] at h2; simp at h2
      | some a =>
        rw [hla] at h2
        simp only [decide_eq_true_eq] at h2
        have hma := lastAllocFor_mem _ _ _ hla
        exact ⟨a, hma.1, hma.2, h2.1, h2.2⟩
  · intro err h
    unfold actionSetStateLoaded
    rw [h]
  · intro l _ hlen
    unfold validateLineBeforeLoaded
    rw [if_pos hlen]


/-- C2 witness: on `worldC2` the validation fails, the error names the
delivery and both drivers, and the loaded transition aborts unchanged. -/
theorem C2_validate_before_loaded_witness :
    (validateBeforeLoaded worldC2 1).isSome ∧
    actionSetStateLoaded worldC2 1 = (worldC2, some (LoadError.missingAlloc 100 [10, 11])) :=
  ⟨(C2_validate_before_loaded worldC2 1 (by decide)).1.mpr
      ⟨⟨2, 1, 1, 100, none, [10, 11]⟩, by decide,
        by decide, Or.inl ⟨10, by decide, by decide⟩⟩,
   (C2_validate_before_loaded worldC2 1 (by decide)).2.2.2.1
      (LoadError.missingAlloc 100 [10, 11]) (by decide)⟩

/-- Helper: the number of allocations carrying a `(line, driver)` key is
the count of that key among the key projections. -/
theorem filter_key_length (la : List Alloc) (k1 k2 : Nat) :
    (la.filter (fun b => b.lineId = k1 ∧ b.driver = k2)).length =
      (la.map (fun b => (b.lineId, b.driver))).count (k1, k2) := by
  induction la with
  | nil => rfl
  | cons a as ih =>
    rw [List.filter_cons, List.map_cons, List.count_cons]
    by_cases h : a.lineId = k1 ∧ a.driver = k2
    · rw [if_pos (by simpa using h), if_pos (by simp [h.1, h.2])]
      rw [List.length_cons, ih]
    · rw [if_neg (by simpa using h), if_neg (by
        simp only [beq_iff_eq, Prod.mk.injEq, not_and]
        intro h1 h2
        exact h ⟨h1, h2⟩)]
      rw [ih]
      omega

/-- Helper: a found element splits the list with no earlier match. -/
theorem find?_decomp (l : List Alloc) (p : Alloc → Bool) (a : Alloc)
    (h : l.find? p = some a) :
    ∃ l1 l2, l = l1 ++ a :: l2 ∧ (∀ x ∈ l1, p x = false) ∧ p a = true := by
  induction l with
  | nil => simp [List.find?] at h
  | cons x xs ih =>
    cases hp : p x with
    | true =>
      rw [List.find?_cons_of_pos _ hp] at h
      obtain rfl := (Option.some.injEq _ _).mp h.symm
      exact ⟨[], xs, rfl, by simp, hp⟩
    | false =>
      rw [List.find?_cons_of_neg _ (by simp [hp])] at h
      obtain ⟨l1, l2, hsplit, h1, ha⟩ := ih h
      exact ⟨x :: l1, l2, by rw [hsplit]; rfl, by
        intro y hy
        rcases List.mem_cons.mp hy with rfl | hmem
        · exact hp
        · exact h1 y hmem, ha⟩

/-- Helper: searching a line's allocations for a driver is searching the
table for the `(line, driver)` key. -/
theorem find?_allocsOfLine (w : World) (lid drv : Nat) :
    (allocsOfLine w lid).find? (fun a => a.driver = drv) =
      w.allocs.find? (fun a => a.lineId = lid ∧ a.driver = drv) := by
  unfold allocsOfLine
  induction w.allocs with
  | nil => rfl
  | cons a as ih =>
    by_cases h1 : a.lineId = lid
    · by_cases h2 : a.driver = drv
      · rw [List.filter_cons_of_pos (by simp [h1]),
          List.find?_cons_of_pos _ (by simp [h2]),
          List.find?_cons_of_pos _ (by simp [h1, h2])]
      · rw [List.filter_cons_of_pos (by simp [h1]),
          List.find?_cons_of_neg _ (by simp [h2]),
          List.find?_cons_of_neg _ (by simp [h2]), ih]
    · rw [List.filter_cons_of_neg (by simp [h1]),
        List.find?_cons_of_neg _ (by simp [h1]), ih]

/-- Helper: updating the first match rewrites exactly the split point. -/
theorem updateFirst_decomp (p : Alloc → Bool) (f : Alloc → Alloc)
    (l1 l2 : List Alloc) (a : Alloc)
    (h1 : ∀ x ∈ l1, p x = false) (ha : p a = true) :
    updateFirst p f (l1 ++ a :: l2) = l1 ++ f a :: l2 := by
  induction l1 with
  | nil => simp [updateFirst, ha]
  | cons x xs ih =>
    have hx := h1 x (List.mem_cons_self x xs)
    simp only [List.cons_append, updateFirst, hx, Bool.false_eq_true, if_false]
    rw [List.append_eq, ih (fun y hy => h1 y (List.mem_cons_of_mem x hy))]

/-- Helper: the participant constraint in spec form. -/
theorem allocParticipantOk_iff (w : World) (a : Alloc) :
    allocParticipantOk w a = true ↔
      ∃ l, findLine w a.lineId = some l ∧ a.driver ∈ l.participants := by
  unfold allocParticipantOk
  cases h : findLine w a.lineId with
  | none => simp [h]
  | some l => simp [h]

/-- Helper: nodup of a list of pairs as a bound on member filters. -/
theorem nodup_iff_filter_le_one (l : List (Nat × Nat)) :
    l.Nodup ↔ ∀ k ∈ l, (l.filter (fun x => x = k)).length ≤ 1 := by
  induction l with
  | nil => simp
  | cons x xs ih =>
    rw [List.nodup_cons]
    constructor
    · intro ⟨hx, hn⟩ k hk
      rcases List.mem_cons.mp hk with rfl | hmem
      · rw [List.filter_cons_of_pos (by simp)]
        have : xs.filter (fun y => y = k) = [] := by
          apply List.filter_eq_nil_iff.mpr
          intro y hy
          simp only [decide_eq_true_eq]
          intro hyk
          exact hx (hyk ▸ hy)
        rw [this]
        simp
      · have hxk : ¬(x = k) := fun he => hx (he ▸ hmem)
        rw [List.filter_cons_of_neg (by simpa using hxk)]
        exact (ih.mp hn) k hmem
    · intro h
      constructor
      · intro hxin
        have := h x (List.mem_cons_self x xs)
        rw [List.filter_cons_of_pos (by simp)] at this
        have hpos : 0 < (xs.filter (fun y => y = x)).length :=
          List.length_pos.mpr (by
            intro hnil
            have := List.filter_eq_nil_iff.mp hnil x hxin
            simp at this)
        simp only [List.length_cons] at this
        omega
      · apply ih.mpr
        intro k hk
        have := h k (List.mem_cons_of_mem x hk)
        rw [List.filter_cons] at this
        cases hfc : (decide (x = k)) with
        | true =>
          rw [hfc] at this
          simp only [if_true, List.length_cons] at this
          omega
        | false =>
          rw [hfc] at this
          simpa using this

/-- Helper: filtering allocations by key matches filtering the key
projection. -/
theorem filter_key_map (l : List Alloc) (k1 k2 : Nat) :
    ((l.map (fun a => (a.lineId, a.driver))).filter (fun x => x = (k1, k2))).length =
      (l.filter (fun b => b.lineId = k1 ∧ b.driver = k2)).length := by
  induction l with
  | nil => rfl
  | cons a as ih =>
    rw [List.map_cons]
    by_cases h : a.lineId = k1 ∧ a.driver = k2
    · rw [List.filter_cons_of_pos (by simp [Prod.ext_iff, h.1, h.2]),
        List.filter_cons_of_pos (by simpa using h)]
      simp only [List.length_cons, ih]
    · rw [List.filter_cons_of_neg (by
        simp only [decide_eq_true_eq, Prod.mk.injEq]
        intro hc
        exact h ⟨hc.1, hc.2⟩),
        List.filter_cons_of_neg (by simpa using h)]
      exact ih

/-- Helper: per-row uniqueness of every row is key-projection nodup. -/
theorem allocUnique_all_iff (w : World) :
    (∀ a ∈ w.allocs, allocUniqueOk w a = true) ↔
      (w.allocs.map (fun a => (a.lineId, a.driver))).Nodup := by
  rw [nodup_iff_filter_le_one]
  constructor
  · intro h k hk
    obtain ⟨a, ha, hak⟩ := List.mem_map.mp hk
    subst hak
    have hu := h a ha
    unfold allocUniqueOk at hu
    simp only [decide_eq_true_eq] at hu
    rw [filter_key_map]
    exact hu
  · intro h a ha
    unfold allocUniqueOk
    simp only [decide_eq_true_eq]
    have := h (a.lineId, a.driver) (List.mem_map.mpr ⟨a, ha, rfl⟩)
    rw [filter_key_map] at this
    exact this

/-- Helper: `allocTableOk` holds exactly when the three specification
invariants hold for every allocation of the table. -/
theorem allocTableOk_iff (w : World) :
    allocTableOk w = true ↔
      ((w.allocs.map (fun a => (a.lineId, a.driver))).Nodup ∧
       ∀ a ∈ w.allocs, (0:ℚ) ≤ a.boxes ∧ 0 ≤ a.weight ∧
         ∃ l, findLine w a.lineId = some l ∧ a.driver ∈ l.participants) := by
  unfold allocTableOk
  rw [List.all_eq_true]
  constructor
  · intro h
    constructor
    · exact (allocUnique_all_iff w).mp (fun a ha => by
        have := h a ha
        simp only [Bool.and_eq_true] at this
        exact this.2)
    · intro a ha
      have := h a ha
      simp only [Bool.and_eq_true] at this
      have h1 := this.1.1
      unfold allocNonNegOk at h1
      simp only [decide_eq_true_eq] at h1
      exact ⟨h1.1, h1.2, (allocParticipantOk_iff w a).mp this.1.2⟩
  · intro ⟨hn, hrows⟩ a ha
    simp only [Bool.and_eq_true]
    obtain ⟨hb, hw', hpart⟩ := hrows a ha
    refine ⟨⟨?_, (allocParticipantOk_iff w a).mpr hpart⟩,
      (allocUnique_all_iff w).mpr hn a ha⟩
    unfold allocNonNegOk
    simp only [decide_eq_true_eq]
    exact ⟨hb, hw'⟩

/-- Helper: the create-time condition in spec form, and the effect of an
accepted or rejected create. -/
theorem allocCreateChecked_spec (w : World) (a : Alloc) :
    ((allocCreateChecked w a).2 = true ↔
      ¬((0:ℚ) ≤ a.boxes ∧ 0 ≤ a.weight ∧
        (∃ l, findLine w a.lineId = some l ∧ a.driver ∈ l.participants) ∧
        ∀ b ∈ w.allocs, ¬(b.lineId = a.lineId ∧ b.driver = a.driver))) ∧
    ((allocCreateChecked w a).2 = true → (allocCreateChecked w a).1 = w) ∧
    ((allocCreateChecked w a).2 = false →
      (allocCreateChecked w a).1 = { w with allocs := w.allocs ++ [a] }) := by
  have hcond : (allocNonNegOk a &&
      allocParticipantOk { w with allocs := w.allocs ++ [a] } a &&
      allocUniqueOk { w with allocs := w.allocs ++ [a] } a) = true ↔
      ((0:ℚ) ≤ a.boxes ∧ 0 ≤ a.weight ∧
        (∃ l, findLine w a.lineId = some l ∧ a.driver ∈ l.participants) ∧
        ∀ b ∈ w.allocs, ¬(b.lineId = a.lineId ∧ b.driver = a.driver)) := by
    simp only [Bool.and_eq_true]
    constructor
    · intro ⟨⟨h1, h2⟩, h3⟩
      unfold allocNonNegOk at h1
      simp only [decide_eq_true_eq] at h1
      refine ⟨h1.1, h1.2, (allocParticipantOk_iff _ a).mp h2, ?_⟩
      unfold allocUniqueOk at h3
      simp only [decide_eq_true_eq] at h3
      rw [List.filter_append] at h3
      have hself : (List.filter (fun b =>
          decide (b.lineId = a.lineId ∧ b.driver = a.driver)) [a]) = [a] := by
        simp
      rw [hself, List.length_append] at h3
      intro b hb hkey
      have : b ∈ List.filter (fun b =>
          decide (b.lineId = a.lineId ∧ b.driver = a.driver)) w.allocs :=
        List.mem_filter.mpr ⟨hb, by simpa using hkey⟩
      have hpos : 0 < (List.filter (fun b =>
          decide (b.lineId = a.lineId ∧ b.driver = a.driver)) w.allocs).length :=
        List.length_pos.mpr (by intro hnil; rw [hnil] at this; cases this)
      simp only [List.length_singleton] at h3
      omega
    · intro ⟨h1, h2, h3, h4⟩
      refine ⟨⟨?_, (allocParticipantOk_iff _ a).mpr h3⟩, ?_⟩
      · unfold allocNonNegOk
        simp only [decide_eq_true_eq]
        exact ⟨h1, h2⟩
      · unfold allocUniqueOk
        simp only [decide_eq_true_eq]
        show (List.filter _ (w.allocs ++ [a])).length ≤ 1
        rw [List.filter_append]
        have hnil : (List.filter (fun b =>
            decide (b.lineId = a.lineId ∧ b.driver = a.driver)) w.allocs) = [] := by
          apply List.filter_eq_nil_iff.mpr
          intro b hb
          simpa using h4 b hb
        rw [hnil]
        simp
  unfold allocCreateChecked
  by_cases hc : (allocNonNegOk a &&
      allocParticipantOk { w with allocs := w.allocs ++ [a] } a &&
      allocUniqueOk { w with allocs := w.allocs ++ [a] } a) = true
  · rw [if_pos hc]
    exact ⟨iff_of_false (by simp) (not_not_intro (hcond.mp hc)),
      fun h => absurd h (by simp), fun _ => rfl⟩
  · rw [if_neg hc]
    exact ⟨iff_of_true rfl (fun hC => hc (hcond.mpr hC)),
      fun _ => rfl, fun h => absurd h (by simp)⟩

/-- Helper: an accepted create keeps every allocation invariant. -/
theorem allocCreateChecked_preserves (w : World) (a : Alloc)
    (hOK : allocTableOk w = true) (hacc : (allocCreateChecked w a).2 = false) :
    allocTableOk (allocCreateChecked w a).1 = true := by
  have hspec := allocCreateChecked_spec w a
  have hC : ¬ ((allocCreateChecked w a).2 = true) := by simp [hacc]
  have hCond := not_not.mp (fun hn => hC (hspec.1.mpr hn))
  obtain ⟨hb, hw', hpart, huniq⟩ := hCond
  rw [hspec.2.2 hacc]
  rw [allocTableOk_iff]
  obtain ⟨hn, hrows⟩ := (allocTableOk_iff w).mp hOK
  constructor
  · show ((w.allocs ++ [a]).map (fun b => (b.lineId, b.driver))).Nodup
    rw [List.map_append]
    rw [List.nodup_append]
    refine ⟨hn, by simp, ?_⟩
    intro k hk hka
    simp only [List.map_cons, List.map_nil, List.mem_cons, List.not_mem_nil,
      or_false] at hka
    subst hka
    obtain ⟨b, hbw, hbk⟩ := List.mem_map.mp hk
    exact huniq b hbw ⟨(Prod.mk.injEq _ _ _ _).mp hbk |>.1,
      (Prod.mk.injEq _ _ _ _).mp hbk |>.2⟩
  · intro b hb'
    rcases List.mem_append.mp hb' with hbw | hba
    · exact hrows b hbw
    · have : b = a := by simpa using hba
      subst this
      exact ⟨hb, hw', hpart⟩

/-- Helper: the lines of `allocWriteTable` are the lines of `w`. -/
theorem findLine_allocWriteTable (w : World) (lid drv : Nat) (a1 : Alloc) (x : Nat) :
    findLine (allocWriteTable w lid drv a1) x = findLine w x := rfl

/-- Helper: the uniqueness check of the rewritten row, in spec form. -/
theorem allocUniqueOk_write_iff (w : World) (lid drv : Nat) (a0 a1 : Alloc)
    (l1 l2 : List Alloc)
    (hw1 : (allocWriteTable w lid drv a1).allocs = l1 ++ a1 :: l2)
    (hn1 : ∀ x ∈ l1, ¬(x.lineId = lid ∧ x.driver = drv))
    (hn2 : ∀ x ∈ l2, ¬(x.lineId = lid ∧ x.driver = drv))
    (ha1lid : a1.lineId = lid)
    (ha0lid : a0.lineId = lid) (ha0drv : a0.driver = drv)
    (hsplit : w.allocs = l1 ++ a0 :: l2) :
    (allocUniqueOk (allocWriteTable w lid drv a1) a1 = true ↔
      (a1.driver = drv ∨ ∀ b ∈ w.allocs, ¬(b.lineId = lid ∧ b.driver = a1.driver))) := by
  unfold allocUniqueOk
  simp only [decide_eq_true_eq]
  rw [hw1]
  simp only [ha1lid]
  by_cases hd : a1.driver = drv
  · apply iff_of_true _ (Or.inl hd)
    rw [List.filter_append]
    have hf1 : l1.filter (fun b => b.lineId = lid ∧ b.driver = a1.driver) = [] := by
      apply List.filter_eq_nil_iff.mpr
      intro x hx
      simp only [decide_eq_true_eq]
      rw [hd]
      exact hn1 x hx
    have hf2 : l2.filter (fun b => b.lineId = lid ∧ b.driver = a1.driver) = [] := by
      apply List.filter_eq_nil_iff.mpr
      intro x hx
      simp only [decide_eq_true_eq]
      rw [hd]
      exact hn2 x hx
    rw [hf1, List.filter_cons_of_pos (by simp [ha1lid]), hf2]
    simp
  · constructor
    · intro hlen
      refine Or.inr ?_
      intro b hb hc
      rw [hsplit] at hb
      rw [List.filter_append, List.filter_cons_of_pos (by simp [ha1lid]),
        List.length_append, List.length_cons] at hlen
      have hf1 : l1.filter (fun x => x.lineId = lid ∧ x.driver = a1.driver) = [] :=
        List.length_eq_zero.mp (by omega)
      have hf2 : l2.filter (fun x => x.lineId = lid ∧ x.driver = a1.driver) = [] :=
        List.length_eq_zero.mp (by omega)
      rcases List.mem_append.mp hb with h1 | h2
      · have : b ∈ l1.filter (fun x => x.lineId = lid ∧ x.driver = a1.driver) :=
          List.mem_filter.mpr ⟨h1, by simpa using hc⟩
        rw [hf1] at this
        cases this
      · rcases List.mem_cons.mp h2 with rfl | h3
        · exact hd (by rw [← hc.2]; exact ha0drv)
        · have : b ∈ l2.filter (fun x => x.lineId = lid ∧ x.driver = a1.driver) :=
            List.mem_filter.mpr ⟨h3, by simpa using hc⟩
          rw [hf2] at this
          cases this
    · intro hall
      have hnone : ∀ b ∈ w.allocs, ¬(b.lineId = lid ∧ b.driver = a1.driver) := by
        rcases hall with hl | hr
        · exact absurd hl hd
        · exact hr
      have hf1 : l1.filter (fun x => x.lineId = lid ∧ x.driver = a1.driver) = [] := by
        apply List.filter_eq_nil_iff.mpr
        intro x hx
        simp only [decide_eq_true_eq]
        exact hnone x (by rw [hsplit]; exact List.mem_append.mpr (Or.inl hx))
      have hf2 : l2.filter (fun x => x.lineId = lid ∧ x.driver = a1.driver) = [] := by
        apply List.filter_eq_nil_iff.mpr
        intro x hx
        simp only [decide_eq_true_eq]
        exact hnone x (by
          rw [hsplit]
          exact List.mem_append.mpr (Or.inr (List.mem_cons_of_mem a0 hx)))
      rw [List.filter_append, List.filter_cons_of_pos (by simp [ha1lid]), hf1, hf2]
      simp

/-- Helper: the write-time condition in spec form — a rejected write leaves
the table unchanged, acceptance is equivalent to the written row
satisfying the three invariants, and an accepted write preserves the
table invariant. -/
theorem allocWriteChecked_spec (w : World) (lid drv : Nat)
    (nd : Option Nat) (nb nw : Option ℚ) (hOK : allocTableOk w = true) :
    ((allocWriteChecked w lid drv nd nb nw).2 = true →
      (allocWriteChecked w lid drv nd nb nw).1 = w) ∧
    (∀ a0, (allocsOfLine w lid).find? (fun a => a.driver = drv) = some a0 →
      (((allocWriteChecked w lid drv nd nb nw).2 = true) ↔
        ¬((0:ℚ) ≤ nb.getD a0.boxes ∧ 0 ≤ nw.getD a0.weight ∧
          (∃ l, findLine w lid = some l ∧ nd.getD a0.driver ∈ l.participants) ∧
          (nd.getD a0.driver = drv ∨
            ∀ b ∈ w.allocs, ¬(b.lineId = lid ∧ b.driver = nd.getD a0.driver))))) ∧
    ((allocWriteChecked w lid drv nd nb nw).2 = false →
      allocTableOk (allocWriteChecked w lid drv nd nb nw).1 = true) := by
  cases hfind : (allocsOfLine w lid).find? (fun a => a.driver = drv) with
  | none =>
    refine ⟨fun _ => ?_, fun a0 h0 => absurd h0 (by simp), fun _ => ?_⟩
    · simp [allocWriteChecked, hfind]
    · have h1 : (allocWriteChecked w lid drv nd nb nw).1 = w := by
        simp [allocWriteChecked, hfind]
      rw [h1]
      exact hOK
  | some a0 =>
    have ha0mem : a0 ∈ allocsOfLine w lid := List.mem_of_find?_eq_some hfind
    have ha0lid : a0.lineId = lid := by
      simpa using (List.mem_filter.mp ha0mem).2
    have ha0drv : a0.driver = drv := by
      simpa using List.find?_some hfind
    have hfind' : w.allocs.find? (fun b => b.lineId = lid ∧ b.driver = drv) = some a0 := by
      rw [← find?_allocsOfLine]
      exact hfind
    obtain ⟨l1, l2, hsplit, hl1, hpa0⟩ := find?_decomp _ _ _ hfind'
    have hn1 : ∀ x ∈ l1, ¬(x.lineId = lid ∧ x.driver = drv) := by
      intro x hx
      have := hl1 x hx
      simpa using this
    have hfl1 : l1.filter (fun b => b.lineId = lid ∧ b.driver = drv) = [] :=
      List.filter_eq_nil_iff.mpr (fun x hx => by simpa using hn1 x hx)
    have hn2 : ∀ x ∈ l2, ¬(x.lineId = lid ∧ x.driver = drv) := by
      have ha0w : a0 ∈ w.allocs := by
        rw [hsplit]
        exact List.mem_append.mpr (Or.inr (List.mem_cons_self _ _))
      have hn := ((allocTableOk_iff w).mp hOK).1
      have hu0 := (allocUnique_all_iff w).mpr hn a0 ha0w
      unfold allocUniqueOk at hu0
      simp only [decide_eq_true_eq, ha0lid, ha0drv] at hu0
      rw [hsplit, List.filter_append,
        List.filter_cons_of_pos (l := l2) hpa0, hfl1] at hu0
      simp only [List.nil_append, List.length_cons] at hu0
      have hnil : l2.filter (fun b => b.lineId = lid ∧ b.driver = drv) = [] :=
        List.length_eq_zero.mp (by omega)
      intro x hx hc
      have hmem : x ∈ l2.filter (fun b => b.lineId = lid ∧ b.driver = drv) :=
        List.mem_filter.mpr ⟨hx, by simpa using hc⟩
      rw [hnil] at hmem
      cases hmem
    have hw1 : (allocWriteTable w lid drv (allocWriteNew a0 nd nb nw)).allocs
        = l1 ++ allocWriteNew a0 nd nb nw :: l2 := by
      show updateFirst _ _ w.allocs = _
      rw [hsplit]
      exact updateFirst_decomp _ _ l1 l2 a0 hl1 hpa0
    have ha1lid : (allocWriteNew a0 nd nb nw).lineId = lid := ha0lid
    have ha1drv : (allocWriteNew a0 nd nb nw).driver = nd.getD a0.driver := rfl
    have hui := allocUniqueOk_write_iff w lid drv a0 (allocWriteNew a0 nd nb nw)
      l1 l2 hw1 hn1 hn2 ha1lid ha0lid ha0drv hsplit
    have hcond : (allocNonNegOk (allocWriteNew a0 nd nb nw) &&
        allocParticipantOk (allocWriteTable w lid drv (allocWriteNew a0 nd nb nw))
          (allocWriteNew a0 nd nb nw) &&
        allocUniqueOk (allocWriteTable w lid drv (allocWriteNew a0 nd nb nw))
          (allocWriteNew a0 nd nb nw)) = true ↔
        ((0:ℚ) ≤ nb.getD a0.boxes ∧ 0 ≤ nw.getD a0.weight ∧
          (∃ l, findLine w lid = some l ∧ nd.getD a0.driver ∈ l.participants) ∧
          (nd.getD a0.driver = drv ∨
            ∀ b ∈ w.allocs, ¬(b.lineId = lid ∧ b.driver = nd.getD a0.driver))) := by
      simp only [Bool.and_eq_true]
      constructor
      · intro ⟨⟨h1, h2⟩, h3⟩
        unfold allocNonNegOk allocWriteNew at h1
        simp only [decide_eq_true_eq] at h1
        have hp := (allocParticipantOk_iff _ _).mp h2
        rw [findLine_allocWriteTable, ha1lid, ha1drv] at hp
        have hu := hui.mp h3
        rw [ha1drv] at hu
        exact ⟨h1.1, h1.2, hp, hu⟩
      · intro ⟨h1, h2, h3, h4⟩
        refine ⟨⟨?_, ?_⟩, ?_⟩
        · unfold allocNonNegOk allocWriteNew
          simp only [decide_eq_true_eq]
          exact ⟨h1, h2⟩
        · apply (allocParticipantOk_iff _ _).mpr
          rw [findLine_allocWriteTable, ha1lid, ha1drv]
          exact h3
        · apply hui.mpr
          rw [ha1drv]
          exact h4
    refine ⟨?_, ?_, ?_⟩
    · intro hrej
      by_cases hc : (allocNonNegOk (allocWriteNew a0 nd nb nw) &&
          allocParticipantOk (allocWriteTable w lid drv (allocWriteNew a0 nd nb nw))
            (allocWriteNew a0 nd nb nw) &&
          allocUniqueOk (allocWriteTable w lid drv (allocWriteNew a0 nd nb nw))
            (allocWriteNew a0 nd nb nw)) = true
      · have : (allocWriteChecked w lid drv nd nb nw).2 = false := by
          simp [allocWriteChecked, hfind, hc]
        rw [this] at hrej
        cases hrej
      · simp [allocWriteChecked, hfind, hc]
    · intro a0' h0'
      have : a0 = a0' := by simpa using h0'
      subst this
      by_cases hc : (allocNonNegOk (allocWriteNew a0 nd nb nw) &&
          allocParticipantOk (allocWriteTable w lid drv (allocWriteNew a0 nd nb nw))
            (allocWriteNew a0 nd nb nw) &&
          allocUniqueOk (allocWriteTable w lid drv (allocWriteNew a0 nd nb nw))
            (allocWriteNew a0 nd nb nw)) = true
      · have hflag : (allocWriteChecked w lid drv nd nb nw).2 = false := by
          simp [allocWriteChecked, hfind, hc]
        rw [hflag]
        exact iff_of_false (by simp) (not_not_intro (hcond.mp hc))
      · have hflag : (allocWriteChecked w lid drv nd nb nw).2 = true := by
          simp [allocWriteChecked, hfind, hc]
        rw [hflag]
        exact iff_of_true rfl (fun hC => hc (hcond.mpr hC))
    · intro hacc
      by_cases hc : (allocNonNegOk (allocWriteNew a0 nd nb nw) &&
          allocParticipantOk (allocWriteTable w lid drv (allocWriteNew a0 nd nb nw))
            (allocWriteNew a0 nd nb nw) &&
          allocUniqueOk (allocWriteTable w lid drv (allocWriteNew a0 nd nb nw))
            (allocWriteNew a0 nd nb nw)) = true
      · have hres : (allocWriteChecked w lid drv nd nb nw).1 =
            allocWriteTable w lid drv (allocWriteNew a0 nd nb nw) := by
          simp [allocWriteChecked, hfind, hc]
        rw [hres]
        obtain ⟨h1, h2, h3, h4⟩ := hcond.mp hc
        rw [allocTableOk_iff]
        have hnw : ((w.allocs.map (fun b => (b.lineId, b.driver)))).Nodup :=
          ((allocTableOk_iff w).mp hOK).1
        rw [hsplit, List.map_append, List.map_cons] at hnw
        constructor
        · show (((allocWriteTable w lid drv (allocWriteNew a0 nd nb nw)).allocs.map
            (fun b => (b.lineId, b.driver)))).Nodup
          rw [hw1, List.map_append, List.map_cons]
          rcases h4 with hd | hnokey
          · have hkey : (((allocWriteNew a0 nd nb nw).lineId,
                (allocWriteNew a0 nd nb nw).driver) : Nat × Nat)
                = (a0.lineId, a0.driver) := by
              rw [ha1lid, ha0lid, ha1drv, hd, ha0drv]
            rw [hkey]
            exact hnw
          · rw [List.nodup_middle] at hnw ⊢
            rw [List.nodup_cons] at hnw ⊢
            refine ⟨?_, hnw.2⟩
            intro hmem
            rw [← List.map_append] at hmem
            obtain ⟨b, hbm, hbk⟩ := List.mem_map.mp hmem
            have hbw : b ∈ w.allocs := by
              rw [hsplit]
              rcases List.mem_append.mp hbm with h5 | h6
              · exact List.mem_append.mpr (Or.inl h5)
              · exact List.mem_append.mpr (Or.inr (List.mem_cons_of_mem a0 h6))
            have hbk' := (Prod.mk.injEq _ _ _ _).mp hbk
            exact hnokey b hbw ⟨by rw [hbk'.1, ha1lid], by rw [hbk'.2, ha1drv]⟩
        · intro b hb
          rw [hw1] at hb
          rcases List.mem_append.mp hb with h5 | h6
          · have hbw : b ∈ w.allocs := by
              rw [hsplit]
              exact List.mem_append.mpr (Or.inl h5)
            exact ((allocTableOk_iff w).mp hOK).2 b hbw
          · rcases List.mem_cons.mp h6 with rfl | h7
            · refine ⟨h1, h2, ?_⟩
              rw [findLine_allocWriteTable, ha1lid, ha1drv]
              exact h3
            · have hbw : b ∈ w.allocs := by
                rw [hsplit]
                exact List.mem_append.mpr (Or.inr (List.mem_cons_of_mem a0 h7))
              exact ((allocTableOk_iff w).mp hOK).2 b hbw
      · have hflag : (allocWriteChecked w lid drv nd nb nw).2 = true := by
          simp [allocWriteChecked, hfind, hc]
        rw [hflag] at hacc
        cases hacc

/-- C5: at all times every allocation satisfies the three invariants —
unique per `(line, driver)` pair, driver a current participant of its
line, and non-negative boxes and weight (this is what `allocTableOk`
checks); a create or write that would violate one of them is rejected
with the transaction aborted and the table unchanged, and an accepted
create or write keeps the whole table valid. -/
theorem C5_allocation_invariants (w : World) (a : Alloc) (lid drv : Nat)
    (nd : Option Nat) (nb nw : Option ℚ) :
    (allocTableOk w = true ↔
      ((w.allocs.map (fun x => (x.lineId, x.driver))).Nodup ∧
       ∀ b ∈ w.allocs, (0:ℚ) ≤ b.boxes ∧ 0 ≤ b.weight ∧
         ∃ l, findLine w b.lineId = some l ∧ b.driver ∈ l.participants)) ∧
    ((allocCreateChecked w a).2 = true ↔
      ¬((0:ℚ) ≤ a.boxes ∧ 0 ≤ a.weight ∧
        (∃ l, findLine w a.lineId = some l ∧ a.driver ∈ l.participants) ∧
        ∀ b ∈ w.allocs, ¬(b.lineId = a.lineId ∧ b.driver = a.driver))) ∧
    ((allocCreateChecked w a).2 = true → (allocCreateChecked w a).1 = w) ∧
    (allocTableOk w = true → (allocCreateChecked w a).2 = false →
      allocTableOk (allocCreateChecked w a).1 = true) ∧
    (allocTableOk w = true →
      ((allocWriteChecked w lid drv nd nb nw).2 = true →
        (allocWriteChecked w lid drv nd nb nw).1 = w) ∧
      (∀ a0, (allocsOfLine w lid).find? (fun x => x.driver = drv) = some a0 →
        (((allocWriteChecked w lid drv nd nb nw).2 = true) ↔
          ¬((0:ℚ) ≤ nb.getD a0.boxes ∧ 0 ≤ nw.getD a0.weight ∧
            (∃ l, findLine w lid = some l ∧ nd.getD a0.driver ∈ l.participants) ∧
            (nd.getD a0.driver = drv ∨
              ∀ b ∈ w.allocs, ¬(b.lineId = lid ∧ b.driver = nd.getD a0.driver))))) ∧
      ((allocWriteChecked w lid drv nd nb nw).2 = false →
        allocTableOk (allocWriteChecked w lid drv nd nb nw).1 = true)) :=
  ⟨allocTableOk_iff w,
   (allocCreateChecked_spec w a).1,
   (allocCreateChecked_spec w a).2.1,
   fun hOK hacc => allocCreateChecked_preserves w a hOK hacc,
   fun hOK => allocWriteChecked_spec w lid drv nd nb nw hOK⟩

/-- Helper: in a duplicate-free list, looking up each element's own index
enumerates `0, …, n-1`. -/
theorem map_findIdx_range (ids : List Nat) (h : ids.Nodup) :
    ids.map (fun x => ids.findIdx (fun y => y = x)) = List.range ids.length := by
  induction ids with
  | nil => rfl
  | cons a t ih =>
    rw [List.nodup_cons] at h
    rw [List.map_cons]
    have hhead : (a :: t).findIdx (fun y => y = a) = 0 := by
      rw [List.findIdx_cons]
      simp
    have htail : t.map (fun x => (a :: t).findIdx (fun y => y = x)) =
        (t.map (fun x => t.findIdx (fun y => y = x))).map (fun k => k + 1) := by
      rw [List.map_map]
      apply List.map_eq_map_iff.mpr
      intro x hx
      have hne : ¬(a = x) := fun he => h.1 (he ▸ hx)
      rw [List.findIdx_cons]
      simp [Function.comp, hne]
    rw [hhead, htail, ih h.2, List.length_cons, List.range_succ_eq_map]

/-- Helper: filtering an expedition's lines commutes with a per-line update
that preserves the owning expedition. -/
theorem filter_map_guard (ls : List Line) (eid : Nat) (F : Line → Line)
    (hF : ∀ l, (F l).expeditionId = l.expeditionId) :
    (ls.map (fun l => if l.expeditionId = eid then F l else l)).filter
        (fun l => l.expeditionId = eid) =
      (ls.filter (fun l => l.expeditionId = eid)).map F := by
  induction ls with
  | nil => rfl
  | cons a t ih =>
    rw [List.map_cons, List.filter_cons, List.filter_cons]
    by_cases h : a.expeditionId = eid
    · rw [if_pos h]
      rw [if_pos (by simpa using (hF a).trans h), if_pos (by simpa using h)]
      rw [List.map_cons, ih]
    · rw [if_neg h]
      rw [if_neg (by simpa using h), if_neg (by simpa using h)]
      exact ih

/-- Helper: skipping an update of a different expedition's lines. -/
theorem filter_map_guard_other (ls : List Line) (e e' : Nat) (F : Line → Line)
    (hF : ∀ l, (F l).expeditionId = l.expeditionId) (hne : e ≠ e') :
    (ls.map (fun l => if l.expeditionId = e' then F l else l)).filter
        (fun l => l.expeditionId = e) =
      ls.filter (fun l => l.expeditionId = e) := by
  induction ls with
  | nil => rfl
  | cons a t ih =>
    rw [List.map_cons, List.filter_cons, List.filter_cons]
    by_cases h : a.expeditionId = e'
    · rw [if_pos h]
      have hno : ¬((F a).expeditionId = e) := by
        rw [hF a, h]
        exact fun hc => hne hc.symm
      have hno' : ¬(a.expeditionId = e) := by
        rw [h]
        exact fun hc => hne hc.symm
      rw [if_neg (by simpa using hno), if_neg (by simpa using hno'), ih]
    · rw [if_neg h]
      by_cases h2 : a.expeditionId = e
      · rw [if_pos (by simpa using h2), if_pos (by simpa using h2), ih]
      · rw [if_neg (by simpa using h2), if_neg (by simpa using h2), ih]

/-- Helper: the lines of an expedition after its resequencing are its old
lines with the positional sequence written in. -/
theorem linesOfExp_resequence (w : World) (eid : Nat) :
    linesOfExp (resequenceExp w eid) eid =
      (linesOfExp w eid).map (fun l =>
        { l with sequence :=
            ((((sortLines (linesOfExp w eid)).map (fun x => x.id)).findIdx
              (fun i => i = l.id) : Nat) : Int) + 1 }) :=
  filter_map_guard w.lines eid _ (fun _ => rfl)

/-- Helper: another expedition's lines are untouched by resequencing. -/
theorem linesOfExp_resequence_other (w : World) (e e' : Nat) (hne : e ≠ e') :
    linesOfExp (resequenceExp w e') e = linesOfExp w e :=
  filter_map_guard_other w.lines e e' _ (fun _ => rfl) hne

/-- Helper: an expedition's lines keep duplicate-free ids. -/
theorem linesOfExp_ids_nodup (w : World) (eid : Nat)
    (h : (w.lines.map (fun l => l.id)).Nodup) :
    ((linesOfExp w eid).map (fun l => l.id)).Nodup :=
  List.Nodup.sublist (List.Sublist.map _ (List.filter_sublist w.lines)) h

/-- Helper: resequencing changes no line id. -/
theorem resequence_ids (w : World) (eid : Nat) :
    (resequenceExp w eid).lines.map (fun l => l.id) = w.lines.map (fun l => l.id) := by
  show (w.lines.map _).map _ = _
  rw [List.map_map]
  apply List.map_eq_map_iff.mpr
  intro l _
  by_cases h : l.expeditionId = eid
  · simp [Function.comp, h]
  · simp [Function.comp, h]

/-- Helper: after resequencing, an expedition's sequences are a
permutation of `1..N`. -/
theorem resequence_perm (w : World) (eid : Nat)
    (h : (w.lines.map (fun l => l.id)).Nodup) :
    ((linesOfExp (resequenceExp w eid) eid).map (fun l => l.sequence)).Perm
      ((List.range' 1 (linesOfExp (resequenceExp w eid) eid).length).map
        Int.ofNat) := by
  rw [linesOfExp_resequence w eid]
  rw [List.map_map, List.length_map]
  have hnodL : ((linesOfExp w eid).map (fun l => l.id)).Nodup :=
    linesOfExp_ids_nodup w eid h
  have hperm : ((sortLines (linesOfExp w eid)).map (fun x => x.id)).Perm
      ((linesOfExp w eid).map (fun l => l.id)) :=
    (sortLines_perm (linesOfExp w eid)).map _
  have hnod : ((sortLines (linesOfExp w eid)).map (fun x => x.id)).Nodup :=
    hperm.nodup_iff.mpr hnodL
  have hlen : ((sortLines (linesOfExp w eid)).map (fun x => x.id)).length =
      (linesOfExp w eid).length := by
    rw [hperm.length_eq, List.length_map]
  have hmfr : ((sortLines (linesOfExp w eid)).map (fun x => x.id)).map (fun i =>
      ((((sortLines (linesOfExp w eid)).map (fun x => x.id)).findIdx
        (fun y => y = i) : Nat) : Int) + 1) =
      (List.range ((sortLines (linesOfExp w eid)).map (fun x => x.id)).length).map
        (fun k => Int.ofNat k + 1) := by
    have hmf := map_findIdx_range _ hnod
    rw [← hmf]
    simp only [List.map_map]
    rfl
  have hrange : (List.range' 1 (linesOfExp w eid).length).map Int.ofNat =
      (List.range (linesOfExp w eid).length).map (fun k => Int.ofNat k + 1) := by
    rw [List.range'_eq_map_range, List.map_map]
    apply List.map_eq_map_iff.mpr
    intro x _
    simp [Function.comp]
    omega
  show ((linesOfExp w eid).map ((fun i =>
      ((((sortLines (linesOfExp w eid)).map (fun x => x.id)).findIdx
        (fun y => y = i) : Nat) : Int) + 1) ∘ (fun l => l.id))).Perm
    ((List.range' 1 (linesOfExp w eid).length).map Int.ofNat)
  rw [← List.map_map]
  refine ((hperm.map _).symm).trans ?_
  rw [hmfr, hlen, hrange]

/-- Helper: browsing a line by id through an id-preserving bulk update. -/
theorem findLine_mapLines (w : World) (g : Line → Line)
    (hid : ∀ l, (g l).id = l.id) (i : Nat) :
    findLine { w with lines := w.lines.map g } i = (findLine w i).map g := by
  show (w.lines.map g).find? _ = _
  rw [List.find?_map]
  have hp : ((fun l : Line => (decide (l.id = i))) ∘ g) =
      (fun l : Line => (decide (l.id = i))) := by
    funext l
    simp [Function.comp, hid l]
  rw [hp]
  rfl

/-- Helper: with unique ids, the member carrying an id is the one found. -/
theorem find?_id_of_mem (ls : List Line) (l : Line)
    (h : (ls.map (fun x => x.id)).Nodup) (hm : l ∈ ls) :
    ls.find? (fun x => x.id = l.id) = some l := by
  induction ls with
  | nil => cases hm
  | cons a t ih =>
    rw [List.map_cons, List.nodup_cons] at h
    rcases List.mem_cons.mp hm with rfl | hmem
    · rw [List.find?_cons_of_pos _ (by simp)]
    · have hne : ¬(a.id = l.id) := by
        intro he
        exact h.1 (List.mem_map.mpr ⟨l, hmem, he.symm⟩)
      rw [List.find?_cons_of_neg _ (by simpa using hne)]
      exact ih h.2 hmem

/-- Helper: with unique entries, `findIdx` recovers a position. -/
theorem findIdx_get (ids : List Nat) (hnod : ids.Nodup) (k : Nat)
    (hk : k < ids.length) :
    ids.findIdx (fun y => y = ids.get ⟨k, hk⟩) = k := by
  have hmf := map_findIdx_range ids hnod
  have h1 : (ids.map (fun x => ids.findIdx (fun y => y = x))).get? k =
      (List.range ids.length).get? k := by rw [hmf]
  have h2 : k < (ids.map (fun x => ids.findIdx (fun y => y = x))).length := by
    rw [List.length_map]
    exact hk
  have h3 : k < (List.range ids.length).length := by
    rw [List.length_range]
    exact hk
  rw [List.get?_eq_get h2, List.get?_eq_get h3] at h1
  have h4 := (Option.some.injEq _ _).mp h1
  rw [List.get_map, List.get_range] at h4
  exact h4

/-- Helper: the renumbering follows the prior `(sequence, id)` order — the
line at position `k` of that order receives the sequence `k + 1`. -/
theorem resequence_order (w : World) (eid : Nat)
    (h : (w.lines.map (fun l => l.id)).Nodup) :
    ∀ k (hk : k < (sortLines (linesOfExp w eid)).length),
      seqOfId (resequenceExp w eid)
        (((sortLines (linesOfExp w eid)).get ⟨k, hk⟩).id) = (k : Int) + 1 := by
  intro k hk
  have hnodL : ((linesOfExp w eid).map (fun l => l.id)).Nodup :=
    linesOfExp_ids_nodup w eid h
  have hperm : ((sortLines (linesOfExp w eid)).map (fun x => x.id)).Perm
      ((linesOfExp w eid).map (fun l => l.id)) :=
    (sortLines_perm (linesOfExp w eid)).map _
  have hnod : ((sortLines (linesOfExp w eid)).map (fun x => x.id)).Nodup :=
    hperm.nodup_iff.mpr hnodL
  have hmemS : (sortLines (linesOfExp w eid)).get ⟨k, hk⟩ ∈
      sortLines (linesOfExp w eid) := List.get_mem _ _ _
  have hmemL : (sortLines (linesOfExp w eid)).get ⟨k, hk⟩ ∈ linesOfExp w eid :=
    mem_sortLines.mp hmemS
  have hexp : ((sortLines (linesOfExp w eid)).get ⟨k, hk⟩).expeditionId = eid := by
    simpa using (List.mem_filter.mp hmemL).2
  have hmemw : (sortLines (linesOfExp w eid)).get ⟨k, hk⟩ ∈ w.lines :=
    List.mem_of_mem_filter hmemL
  have hfw : findLine w (((sortLines (linesOfExp w eid)).get ⟨k, hk⟩).id) =
      some ((sortLines (linesOfExp w eid)).get ⟨k, hk⟩) :=
    find?_id_of_mem w.lines _ h hmemw
  have hfl : findLine (resequenceExp w eid)
      (((sortLines (linesOfExp w eid)).get ⟨k, hk⟩).id) =
      (findLine w (((sortLines (linesOfExp w eid)).get ⟨k, hk⟩).id)).map (fun l =>
        if l.expeditionId = eid then
          { l with sequence :=
              ((((sortLines (linesOfExp w eid)).map (fun x => x.id)).findIdx
                (fun i => i = l.id) : Nat) : Int) + 1 }
        else l) :=
    findLine_mapLines w _ (fun l => by
      by_cases hc : l.expeditionId = eid <;> simp [hc]) _
  unfold seqOfId
  rw [hfl, hfw]
  simp only [Option.map_some']
  rw [if_pos hexp]
  have hkid : k < ((sortLines (linesOfExp w eid)).map (fun x => x.id)).length := by
    rw [List.length_map]
    exact hk
  have hgm : ((sortLines (linesOfExp w eid)).map (fun x => x.id)).get ⟨k, hkid⟩ =
      ((sortLines (linesOfExp w eid)).get ⟨k, hk⟩).id := List.get_map _
  have hid2 := findIdx_get _ hnod k hkid
  rw [hgm] at hid2
  simp only [hid2]

/-- Helper: a left fold of `max` bounds the seed and every element. -/
theorem foldl_max_le (ss : List Int) :
    ∀ s : Int, s ≤ ss.foldl max s ∧ ∀ x ∈ ss, x ≤ ss.foldl max s := by
  induction ss with
  | nil =>
    intro s
    exact ⟨le_refl s, by simp⟩
  | cons a t ih =>
    intro s
    constructor
    · exact le_trans (le_max_left s a) (ih (max s a)).1
    · intro x hx
      rcases List.mem_cons.mp hx with rfl | hmem
      · exact le_trans (le_max_right s x) (ih (max s x)).1
      · exact (ih (max s a)).2 x hmem

/-- Helper: a left fold of `max` is the seed or an element. -/
theorem foldl_max_mem (ss : List Int) :
    ∀ s : Int, ss.foldl max s = s ∨ ss.foldl max s ∈ ss := by
  induction ss with
  | nil =>
    intro s
    exact Or.inl rfl
  | cons a t ih =>
    intro s
    rw [List.foldl_cons]
    rcases ih (max s a) with h | h
    · rcases max_choice s a with hc | hc
      · exact Or.inl (by rw [h, hc])
      · exact Or.inr (by rw [h, hc]; exact List.mem_cons_self a t)
    · exact Or.inr (List.mem_cons_of_mem a h)

/-- Helper: the sequence assigned to a line created without one is `1` on
an empty expedition. -/
theorem nextSeqFor_empty (w : World) (eid : Nat) (h : linesOfExp w eid = []) :
    nextSeqFor w eid = 1 := by
  unfold nextSeqFor
  rw [h]
  rfl

/-- Helper: the assigned sequence is strictly beyond every current one. -/
theorem nextSeqFor_gt (w : World) (eid : Nat) :
    ∀ l ∈ linesOfExp w eid, l.sequence < nextSeqFor w eid := by
  intro l hl
  unfold nextSeqFor
  cases hc : (linesOfExp w eid).map (fun x => x.sequence) with
  | nil =>
    rw [List.map_eq_nil] at hc
    rw [hc] at hl
    cases hl
  | cons s ss =>
    show l.sequence < ss.foldl max s + 1
    have hmem : l.sequence ∈ (linesOfExp w eid).map (fun x => x.sequence) :=
      List.mem_map.mpr ⟨l, hl, rfl⟩
    rw [hc] at hmem
    rcases List.mem_cons.mp hmem with he | hmem'
    · have := (foldl_max_le ss s).1
      omega
    · have := (foldl_max_le ss s).2 _ hmem'
      omega

/-- Helper: the assigned sequence is one past an existing sequence when the
expedition has lines — together with `nextSeqFor_gt`, one past the
maximum. -/
theorem nextSeqFor_attained (w : World) (eid : Nat) (h : linesOfExp w eid ≠ []) :
    ∃ l ∈ linesOfExp w eid, nextSeqFor w eid = l.sequence + 1 := by
  unfold nextSeqFor
  cases hc : (linesOfExp w eid).map (fun x => x.sequence) with
  | nil => exact absurd (List.map_eq_nil.mp hc) h
  | cons s ss =>
    show ∃ l ∈ linesOfExp w eid, ss.foldl max s + 1 = l.sequence + 1
    have hsm : ∀ v, v ∈ (s :: ss) →
        ∃ l ∈ linesOfExp w eid, v = l.sequence := by
      intro v hv
      rw [← hc] at hv
      obtain ⟨l, hl, hv'⟩ := List.mem_map.mp hv
      exact ⟨l, hl, hv'.symm⟩
    rcases foldl_max_mem ss s with hm | hm
    · obtain ⟨l, hl, hv⟩ := hsm s (List.mem_cons_self s ss)
      exact ⟨l, hl, by rw [hm, hv]⟩
    · obtain ⟨l, hl, hv⟩ := hsm _ (List.mem_cons_of_mem s hm)
      exact ⟨l, hl, by rw [hv]⟩

/-- Helper: allocation sync never touches the lines table. -/
theorem syncAllocations_lines (env : Env) (w : World) (lid : Nat) :
    (syncAllocations env w lid).lines = w.lines := by
  unfold syncAllocations
  cases findLine w lid <;> rfl

/-- Helper: allocation sync preserves every expedition's lines. -/
theorem linesOfExp_syncAllocations (env : Env) (w : World) (lid e : Nat) :
    linesOfExp (syncAllocations env w lid) e = linesOfExp w e := by
  unfold linesOfExp
  rw [syncAllocations_lines]

/-- Helper: an id-preserving bulk update keeps the id projection. -/
theorem mapLines_ids (ls : List Line) (g : Line → Line)
    (hid : ∀ l, (g l).id = l.id) :
    (ls.map g).map (fun l => l.id) = ls.map (fun l => l.id) := by
  rw [List.map_map]
  apply List.map_eq_map_iff.mpr
  intro l _
  simp [Function.comp, hid l]

/-- C6: outside the deferred context, every create, delete, or write of
`sequence`/`expedition_id` renumbers the affected expeditions' lines to
exactly `{1..N}` (no gaps or duplicates — stated as a permutation of
`[1..N]`), with ties broken by prior sequence then creation order (the
line at position `k` of the `(sequence, id)` order gets sequence
`k + 1`); a line created without a supplied sequence gets `nextSeqFor` —
`1` on an empty expedition and otherwise one past the current maximum —
before the renumbering. -/
theorem C6_sequence_renumbering (env : Env) (w : World) (eid pid lid : Nat)
    (ps : List Nat) (veh : Option Nat) (seq? newSeq : Option Int)
    (newExp : Option Nat)
    (hids : (w.lines.map (fun l => l.id)).Nodup)
    (hbound : ∀ l ∈ w.lines, l.id < w.nextId) :
    ((linesOfExp (resequenceExp w eid) eid).map (fun l => l.sequence)).Perm
      ((List.range' 1 (linesOfExp (resequenceExp w eid) eid).length).map
        Int.ofNat) ∧
    (∀ k (hk : k < (sortLines (linesOfExp w eid)).length),
      seqOfId (resequenceExp w eid)
        (((sortLines (linesOfExp w eid)).get ⟨k, hk⟩).id) = (k : Int) + 1) ∧
    (linesOfExp w eid = [] → nextSeqFor w eid = 1) ∧
    (∀ l ∈ linesOfExp w eid, l.sequence < nextSeqFor w eid) ∧
    (linesOfExp w eid ≠ [] →
      ∃ l ∈ linesOfExp w eid, nextSeqFor w eid = l.sequence + 1) ∧
    ((linesOfExp (createLine env w eid pid ps veh seq?).1 eid).map
        (fun l => l.sequence)).Perm
      ((List.range' 1
        (linesOfExp (createLine env w eid pid ps veh seq?).1 eid).length).map
        Int.ofNat) ∧
    (∀ l0, findLine w lid = some l0 →
      ((linesOfExp (unlinkLine w lid) l0.expeditionId).map
          (fun l => l.sequence)).Perm
        ((List.range' 1
          (linesOfExp (unlinkLine w lid) l0.expeditionId).length).map
          Int.ofNat)) ∧
    (∀ l0, findLine w lid = some l0 → (newSeq.isSome || newExp.isSome) = true →
      (((linesOfExp (lineWriteSeqExp w lid newSeq newExp)
          (newExp.getD l0.expeditionId)).map (fun l => l.sequence)).Perm
        ((List.range' 1 (linesOfExp (lineWriteSeqExp w lid newSeq newExp)
          (newExp.getD l0.expeditionId)).length).map Int.ofNat)) ∧
      (((linesOfExp (lineWriteSeqExp w lid newSeq newExp)
          l0.expeditionId).map (fun l => l.sequence)).Perm
        ((List.range' 1 (linesOfExp (lineWriteSeqExp w lid newSeq newExp)
          l0.expeditionId).length).map Int.ofNat))) := by
  refine ⟨resequence_perm w eid hids, resequence_order w eid hids,
    nextSeqFor_empty w eid, nextSeqFor_gt w eid, nextSeqFor_attained w eid,
    ?_, ?_, ?_⟩
  · have key : ∀ sq : Int,
        ((linesOfExp (syncAllocations env (resequenceExp
            (⟨w.expeditions, w.lines ++ [⟨w.nextId, eid, sq, pid, veh, ps⟩],
              w.allocs, w.nextId + 1⟩ : World) eid) w.nextId) eid).map
          (fun l => l.sequence)).Perm
        ((List.range' 1 ((linesOfExp (syncAllocations env (resequenceExp
            (⟨w.expeditions, w.lines ++ [⟨w.nextId, eid, sq, pid, veh, ps⟩],
              w.allocs, w.nextId + 1⟩ : World) eid) w.nextId) eid)).length).map
          Int.ofNat) := by
      intro sq
      have hn1 : (((⟨w.expeditions,
          w.lines ++ [⟨w.nextId, eid, sq, pid, veh, ps⟩],
          w.allocs, w.nextId + 1⟩ : World)).lines.map (fun l => l.id)).Nodup := by
        show ((w.lines ++ _).map (fun l => l.id)).Nodup
        rw [List.map_append]
        rw [List.nodup_append]
        refine ⟨hids, by simp, ?_⟩
        intro x hx hx2
        simp only [List.map_cons, List.map_nil, List.mem_cons,
          List.not_mem_nil, or_false] at hx2
        obtain ⟨l, hl, hlid⟩ := List.mem_map.mp hx
        subst hx2
        rw [← hlid] at hx
        have := hbound l hl
        omega
      rw [linesOfExp_syncAllocations]
      exact resequence_perm _ eid hn1
    exact key (match seq? with | some s => s | none => nextSeqFor w eid)
  · intro l0 h0
    have hres : unlinkLine w lid =
        resequenceExp
          { w with
            lines := w.lines.filter (fun x => x.id ≠ lid)
            allocs := w.allocs.filter (fun a => a.lineId ≠ lid) }
          l0.expeditionId := by
      unfold unlinkLine
      rw [h0]
    have hn1 : (({ w with
        lines := w.lines.filter (fun x => x.id ≠ lid)
        allocs := w.allocs.filter (fun a => a.lineId ≠ lid) } : World).lines.map
          (fun l => l.id)).Nodup := by
      show ((w.lines.filter _).map (fun l => l.id)).Nodup
      exact List.Nodup.sublist (List.Sublist.map _ (List.filter_sublist w.lines)) hids
    rw [hres]
    exact resequence_perm _ l0.expeditionId hn1
  · intro l0 h0 hsome
    have hres : lineWriteSeqExp w lid newSeq newExp =
        resequenceExp
          (resequenceExp
            { w with
              lines := w.lines.map (fun x =>
                if x.id = lid then
                  { x with
                    sequence := newSeq.getD x.sequence
                    expeditionId := newExp.getD x.expeditionId }
                else x) }
            l0.expeditionId)
          (newExp.getD l0.expeditionId) := by
      unfold lineWriteSeqExp
      rw [h0]
      simp only [hsome, if_true]
    have hn1 : (({ w with
        lines := w.lines.map (fun x =>
          if x.id = lid then
            { x with
              sequence := newSeq.getD x.sequence
              expeditionId := newExp.getD x.expeditionId }
          else x) } : World).lines.map (fun l => l.id)).Nodup := by
      show ((w.lines.map (fun x =>
          if x.id = lid then
            { x with
              sequence := newSeq.getD x.sequence
              expeditionId := newExp.getD x.expeditionId }
          else x)).map (fun l => l.id)).Nodup
      rw [mapLines_ids _ _ (fun l => by
        by_cases hc : l.id = lid <;> simp [hc])]
      exact hids
    have hn2 : ((resequenceExp
        { w with
          lines := w.lines.map (fun x =>
            if x.id = lid then
              { x with
                sequence := newSeq.getD x.sequence
                expeditionId := newExp.getD x.expeditionId }
            else x) }
        l0.expeditionId).lines.map (fun l => l.id)).Nodup := by
      rw [resequence_ids]
      exact hn1
    constructor
    · rw [hres]
      exact resequence_perm _ _ hn2
    · by_cases he : l0.expeditionId = newExp.getD l0.expeditionId
      · rw [hres, ← he]
        have := resequence_perm
          (resequenceExp
            { w with
              lines := w.lines.map (fun x =>
                if x.id = lid then
                  { x with
                    sequence := newSeq.getD x.sequence
                    expeditionId := newExp.getD x.expeditionId }
                else x) }
            l0.expeditionId)
          l0.expeditionId hn2
        exact this
      · rw [hres]
        have hother := linesOfExp_resequence_other
          (resequenceExp
            { w with
              lines := w.lines.map (fun x =>
                if x.id = lid then
                  { x with
                    sequence := newSeq.getD x.sequence
                    expeditionId := newExp.getD x.expeditionId }
                else x) }
            l0.expeditionId)
          l0.expeditionId (newExp.getD l0.expeditionId) he
        rw [hother]
        exact resequence_perm _ l0.expeditionId hn1

/-- C6 witness: the theorem applied to a two-line world with gapped
sequences. -/
theorem C6_sequence_renumbering_witness :
    ((linesOfExp (resequenceExp
        ⟨[⟨1, 0, 0, 10, none, ExpState.planned, none⟩],
         [⟨2, 1, 7, 100, none, [10]⟩, ⟨3, 1, 4, 101, none, [10]⟩],
         [], 4⟩ 1) 1).map (fun l => l.sequence)).Perm
      ((List.range' 1 (linesOfExp (resequenceExp
        ⟨[⟨1, 0, 0, 10, none, ExpState.planned, none⟩],
         [⟨2, 1, 7, 100, none, [10]⟩, ⟨3, 1, 4, 101, none, [10]⟩],
         [], 4⟩ 1) 1).length).map Int.ofNat) ∧
    nextSeqFor
      (⟨[⟨1, 0, 0, 10, none, ExpState.planned, none⟩],
        [⟨2, 1, 7, 100, none, [10]⟩, ⟨3, 1, 4, 101, none, [10]⟩],
        [], 4⟩ : World) 1 = 8 := by
  have h := C6_sequence_renumbering ⟨fun _ => none, fun _ => none⟩
    ⟨[⟨1, 0, 0, 10, none, ExpState.planned, none⟩],
     [⟨2, 1, 7, 100, none, [10]⟩, ⟨3, 1, 4, 101, none, [10]⟩],
     [], 4⟩ 1 100 2 [10] none none none none
    (by decide) (by decide)
  refine ⟨h.1, ?_⟩
  obtain ⟨l, hl, hseq⟩ := h.2.2.2.2.1 (by decide)
  have h7 := h.2.2.2.1
  have h2 : l = ⟨2, 1, 7, 100, none, [10]⟩ ∨ l = ⟨3, 1, 4, 101, none, [10]⟩ := by
    have : l ∈ linesOfExp
        (⟨[⟨1, 0, 0, 10, none, ExpState.planned, none⟩],
          [⟨2, 1, 7, 100, none, [10]⟩, ⟨3, 1, 4, 101, none, [10]⟩],
          [], 4⟩ : World) 1 := hl
    simpa [linesOfExp] using this
  rcases h2 with rfl | rfl
  · rw [hseq]
    decide
  · have hcontra := h7 ⟨2, 1, 7, 100, none, [10]⟩ (by decide)
    rw [hseq] at hcontra
    exact absurd hcontra (by decide)



/-- C1 (bug evaluation): changing the main driver of expedition 1 from 10
to 11 does replace the participant, but the old driver's allocation
(5 boxes / 2 kg) is *not* merged into or moved to driver 11: the
participant write triggers `_sync_allocations_with_participants`, which
deletes driver 10's allocation and creates a fresh zero allocation for
driver 11 before the merge/move code of `_replace_primary_driver` reads
`allocation_ids`, so that code finds nothing and the quantities are
lost. -/
theorem C1_driver_change_allocation_lost :
    allocsOfLine worldC1 2 = [⟨2, 10, none, 5, 2⟩] ∧
    (findLine (expeditionWriteDriver envPlain worldC1 1 11) 2).map
      (fun l => l.participants) = some [11] ∧
    (findExp (expeditionWriteDriver envPlain worldC1 1 11) 1).map
      (fun e => e.driverId) = some 11 ∧
    allocsOfLine (expeditionWriteDriver envPlain worldC1 1 11) 2 =
      [⟨2, 11, none, 0, 0⟩] := by
  refine ⟨rfl, rfl, rfl, rfl⟩


/-- C5 witness: on `worldC5` the invariant characterization holds, a
duplicate create for the same `(line, driver)` is rejected leaving the
table unchanged, and a negative-boxes write is rejected. -/
theorem C5_allocation_invariants_witness :
    allocTableOk worldC5 = true ∧
    (allocCreateChecked worldC5 ⟨2, 10, none, 1, 1⟩).2 = true ∧
    (allocCreateChecked worldC5 ⟨2, 10, none, 1, 1⟩).1 = worldC5 ∧
    (allocWriteChecked worldC5 2 10 none (some (-1)) none).2 = true ∧
    (allocWriteChecked worldC5 2 10 none (some (-1)) none).1 = worldC5 := by
  have h := C5_allocation_invariants worldC5 ⟨2, 10, none, 1, 1⟩ 2 10 none (some (-1)) none
  have hok : allocTableOk worldC5 = true :=
    h.1.mpr ⟨by decide, by decide⟩
  have hcrej : (allocCreateChecked worldC5 ⟨2, 10, none, 1, 1⟩).2 = true :=
    h.2.1.mpr (by decide)
  have hwrej : (allocWriteChecked worldC5 2 10 none (some (-1)) none).2 = true :=
    ((h.2.2.2.2 hok).2.1 ⟨2, 10, none, 3, 1⟩ (by decide)).mpr (by decide)
  exact ⟨hok, hcrej, h.2.2.1 hcrej, hwrej, (h.2.2.2.2 hok).1 hwrej⟩


/-! ## C3: the single-driver split (`_split_extra_drivers_to_separate_expeditions`) -/





/-- C3 (counterexample to the original claim): line 2 of expedition 1
(driver 10) has participants `[10, 11]` and driver 11 holds an allocation
of 5 boxes / 2 kg; a participant write that leaves both drivers on the
line triggers the split, and afterwards driver 11 does own a single-driver
line for picking 100 in his own `(company, date)` expedition — but its
allocation is a fresh zero row (0 boxes / 0 kg): the 5 boxes / 2 kg were
deleted by `_sync_allocations_with_participants`, not relocated or merged. -/
theorem C3_share_not_relocated :
    allocsOfLine worldC3 2 = [⟨2, 10, none, 3, 1⟩, ⟨2, 11, none, 5, 2⟩] ∧
    lineWriteParts envPlain worldC3 2 [10, 11] =
      ⟨[⟨1, 0, 0, 10, none, ExpState.planned, none⟩,
        ⟨3, 0, 0, 11, none, ExpState.planned, none⟩],
       [⟨2, 1, 1, 100, none, [10]⟩, ⟨4, 3, 1, 100, none, [11]⟩],
       [⟨2, 10, none, 3, 1⟩, ⟨4, 11, none, 0, 0⟩], 5⟩ := ⟨rfl, rfl⟩

-- basic list helpers

theorem mem_length_one {α} {x : α} {l : List α} (hm : x ∈ l) (hl : l.length = 1) :
    l = [x] := by
  cases l with
  | nil => cases hm
  | cons a t =>
    cases t with
    | nil =>
      rcases List.mem_cons.mp hm with rfl | h
      · rfl
      · cases h
    | cons b u => simp at hl

theorem find?_append_some {α} (p : α → Bool) (l1 l2 : List α) (a : α)
    (h : l1.find? p = some a) : (l1 ++ l2).find? p = some a := by
  induction l1 with
  | nil => simp [List.find?] at h
  | cons x t ih =>
    cases hx : p x with
    | true =>
      rw [List.find?_cons_of_pos _ hx] at h
      rw [List.cons_append, List.find?_cons_of_pos _ hx]
      exact h
    | false =>
      rw [List.find?_cons_of_neg _ (by simp [hx])] at h
      rw [List.cons_append, List.find?_cons_of_neg _ (by simp [hx])]
      exact ih h

-- sync/update/resequence field lemmas

theorem syncAllocations_exps (env : Env) (w : World) (lid : Nat) :
    (syncAllocations env w lid).expeditions = w.expeditions := by
  unfold syncAllocations
  cases findLine w lid <;> rfl

theorem syncAllocations_nextId (env : Env) (w : World) (lid : Nat) :
    (syncAllocations env w lid).nextId = w.nextId := by
  unfold syncAllocations
  cases findLine w lid <;> rfl

theorem findLine_sync (env : Env) (w : World) (lid i : Nat) :
    findLine (syncAllocations env w lid) i = findLine w i := by
  unfold findLine
  rw [syncAllocations_lines]

theorem lineCore_sync (env : Env) (w : World) (lid i : Nat) :
    lineCore (syncAllocations env w lid) i = lineCore w i := by
  unfold lineCore
  rw [findLine_sync]

theorem syncAllocations_allocs (env : Env) (w : World) (lid : Nat) (l : Line)
    (hf : findLine w lid = some l) :
    (syncAllocations env w lid).allocs =
      (w.allocs.filter (fun a => ¬(a.lineId = lid ∧ a.driver ∉ l.participants))) ++
      mkZeroAllocs env w l
        (l.participants.filter (fun d =>
          d ∉ (((w.allocs.filter (fun a => ¬(a.lineId = lid ∧ a.driver ∉ l.participants))).filter
                (fun a => a.lineId = lid)).map (fun a => a.driver)))) := by
  unfold syncAllocations
  rw [hf]

theorem syncAllocations_keep (env : Env) (w : World) (lid : Nat) (a : Alloc)
    (ha : a ∈ w.allocs) (hne : a.lineId ≠ lid) :
    a ∈ (syncAllocations env w lid).allocs := by
  cases hf : findLine w lid with
  | none =>
    unfold syncAllocations
    rw [hf]
    exact ha
  | some l =>
    rw [syncAllocations_allocs env w lid l hf]
    refine List.mem_append_left _ ?_
    refine List.mem_filter.mpr ⟨ha, ?_⟩
    simp [hne]

theorem syncAllocations_estab (env : Env) (w : World) (lid : Nat) (l : Line)
    (hf : findLine w lid = some l) (d : Nat) (hd : d ∈ l.participants) :
    ∃ a ∈ (syncAllocations env w lid).allocs, a.lineId = lid ∧ a.driver = d := by
  have hlid : l.id = lid := by simpa using List.find?_some hf
  rw [syncAllocations_allocs env w lid l hf]
  by_cases hex : d ∈ (((w.allocs.filter (fun a => ¬(a.lineId = lid ∧ a.driver ∉ l.participants))).filter
      (fun a => a.lineId = lid)).map (fun a => a.driver))
  · rcases List.mem_map.mp hex with ⟨a, haf, had⟩
    rcases List.mem_filter.mp haf with ⟨hak, hal⟩
    exact ⟨a, List.mem_append_left _ hak, by simpa using hal, had⟩
  · refine ⟨⟨l.id, d, allocDefaultVehicle env w l d, 0, 0⟩, ?_, hlid, rfl⟩
    refine List.mem_append_right _ ?_
    unfold mkZeroAllocs
    exact List.mem_map.mpr ⟨d, List.mem_filter.mpr ⟨hd, by simpa using hex⟩, rfl⟩

-- updateLineParts lemmas

theorem updateLineParts_exps (w : World) (lid : Nat) (ps : List Nat) :
    (updateLineParts w lid ps).expeditions = w.expeditions := rfl

theorem updateLineParts_allocs (w : World) (lid : Nat) (ps : List Nat) :
    (updateLineParts w lid ps).allocs = w.allocs := rfl

theorem updateLineParts_nextId (w : World) (lid : Nat) (ps : List Nat) :
    (updateLineParts w lid ps).nextId = w.nextId := rfl

theorem findLine_updateLineParts (w : World) (lid : Nat) (ps : List Nat) (i : Nat) :
    findLine (updateLineParts w lid ps) i =
      (findLine w i).map
        (fun l => if l.id = lid then { l with participants := ps } else l) :=
  findLine_mapLines w _ (fun x => by by_cases hx : x.id = lid <;> simp [hx]) i

theorem findLine_updateLineParts_self (w : World) (lid : Nat) (ps : List Nat)
    (l : Line) (hf : findLine w lid = some l) :
    findLine (updateLineParts w lid ps) lid = some { l with participants := ps } := by
  rw [findLine_updateLineParts w lid ps lid, hf]
  have hlid : l.id = lid := by simpa using List.find?_some hf
  simp [hlid]

-- lineCore through bulk id-preserving updates

theorem lineCore_mapLines (w : World) (g : Line → Line)
    (hid : ∀ l, (g l).id = l.id)
    (hexp : ∀ l, (g l).expeditionId = l.expeditionId)
    (hpick : ∀ l, (g l).pickingId = l.pickingId)
    (hparts : ∀ l, (g l).participants = l.participants) (i : Nat) :
    lineCore { w with lines := w.lines.map g } i = lineCore w i := by
  unfold lineCore
  rw [findLine_mapLines w g hid i]
  cases findLine w i with
  | none => rfl
  | some l => simp [hexp l, hpick l, hparts l]

-- resequence lemmas

theorem resequenceExp_def (w : World) (eid : Nat) :
    resequenceExp w eid = { w with lines := w.lines.map (fun l =>
      if l.expeditionId = eid then
        { l with sequence :=
            ((((sortLines (linesOfExp w eid)).map (fun x => x.id)).findIdx
              (fun i => i = l.id) : Nat) : Int) + 1 }
      else l) } := rfl

theorem resequenceExp_exps (w : World) (eid : Nat) :
    (resequenceExp w eid).expeditions = w.expeditions := rfl

theorem resequenceExp_allocs (w : World) (eid : Nat) :
    (resequenceExp w eid).allocs = w.allocs := rfl

theorem resequenceExp_nextId (w : World) (eid : Nat) :
    (resequenceExp w eid).nextId = w.nextId := rfl

theorem lineCore_resequence (w : World) (eid i : Nat) :
    lineCore (resequenceExp w eid) i = lineCore w i := by
  rw [resequenceExp_def]
  exact lineCore_mapLines w _
    (fun l => by by_cases h : l.expeditionId = eid <;> simp [h])
    (fun l => by by_cases h : l.expeditionId = eid <;> simp [h])
    (fun l => by by_cases h : l.expeditionId = eid <;> simp [h])
    (fun l => by by_cases h : l.expeditionId = eid <;> simp [h]) i

theorem resequence_mem_core (w : World) (eid : Nat) (l : Line) (hm : l ∈ w.lines) :
    ∃ x ∈ (resequenceExp w eid).lines,
      x.id = l.id ∧ x.expeditionId = l.expeditionId ∧ x.pickingId = l.pickingId ∧
      x.participants = l.participants := by
  rw [resequenceExp_def]
  refine ⟨_, List.mem_map.mpr ⟨l, hm, rfl⟩, ?_⟩
  by_cases h : l.expeditionId = eid <;> simp [h]

theorem winv_resequence (w : World) (eid : Nat) (hInv : WInv w) :
    WInv (resequenceExp w eid) := by
  rw [resequenceExp_def]
  set g : Line → Line := (fun l =>
      if l.expeditionId = eid then
        { l with sequence :=
            ((((sortLines (linesOfExp w eid)).map (fun x => x.id)).findIdx
              (fun i => i = l.id) : Nat) : Int) + 1 }
      else l) with hg
  have hid : ∀ l, (g l).id = l.id := fun l => by
    by_cases h : l.expeditionId = eid <;> simp [hg, h]
  have hexp : ∀ l, (g l).expeditionId = l.expeditionId := fun l => by
    by_cases h : l.expeditionId = eid <;> simp [hg, h]
  have hparts : ∀ l, (g l).participants = l.participants := fun l => by
    by_cases h : l.expeditionId = eid <;> simp [hg, h]
  refine ⟨hInv.expBound, ?_, hInv.expNodup, ?_, ?_, ?_⟩
  · intro l hl
    rcases List.mem_map.mp hl with ⟨x, hx, rfl⟩
    rw [hid x]
    exact hInv.lineBound x hx
  · rw [mapLines_ids _ g hid]
    exact hInv.lineNodup
  · intro l hl
    rcases List.mem_map.mp hl with ⟨x, hx, rfl⟩
    rw [hexp x]
    exact hInv.lineExpValid x hx
  · intro l hl d hd
    rcases List.mem_map.mp hl with ⟨x, hx, rfl⟩
    rw [hparts x] at hd
    rcases hInv.partAlloc x hx d hd with ⟨a, ha, h1, h2⟩
    exact ⟨a, ha, by rw [hid x]; exact h1, h2⟩

-- createExpedition lemmas

theorem createExpedition_fst (env : Env) (w : World) (c d drv : Nat) :
    (createExpedition env w c d drv).1 =
      { w with
        expeditions := w.expeditions ++
          [⟨w.nextId, c, d, drv, env.driverDefault drv, ExpState.planned, none⟩]
        nextId := w.nextId + 1 } := rfl

theorem createExpedition_snd (env : Env) (w : World) (c d drv : Nat) :
    (createExpedition env w c d drv).2 = w.nextId := rfl

theorem winv_createExpedition (env : Env) (w : World) (c d drv : Nat)
    (hInv : WInv w) : WInv (createExpedition env w c d drv).1 := by
  rw [createExpedition_fst]
  refine ⟨?_, ?_, ?_, hInv.lineNodup, ?_, hInv.partAlloc⟩
  · intro e he
    rcases List.mem_append.mp he with h | h
    · exact Nat.lt_succ_of_lt (hInv.expBound e h)
    · rcases List.mem_singleton.mp h with rfl
      exact Nat.lt_succ_self _
  · intro l hl
    exact Nat.lt_succ_of_lt (hInv.lineBound l hl)
  · rw [List.map_append]
    rw [List.nodup_append]
    refine ⟨hInv.expNodup, List.nodup_singleton _, ?_⟩
    intro x hx hx2
    rcases List.mem_map.mp hx with ⟨e, he, rfl⟩
    have hb := hInv.expBound e he
    simp at hx2
    omega
  · intro l hl
    rcases hInv.lineExpValid l hl with ⟨e, he, heq⟩
    exact ⟨e, List.mem_append_left _ he, heq⟩

-- lineWritePartsNoSplit lemmas

theorem lwpns_exps (env : Env) (w : World) (lid : Nat) (ps : List Nat) :
    (lineWritePartsNoSplit env w lid ps).expeditions = w.expeditions := by
  unfold lineWritePartsNoSplit
  rw [syncAllocations_exps, updateLineParts_exps]

theorem lwpns_nextId (env : Env) (w : World) (lid : Nat) (ps : List Nat) :
    (lineWritePartsNoSplit env w lid ps).nextId = w.nextId := by
  unfold lineWritePartsNoSplit
  rw [syncAllocations_nextId, updateLineParts_nextId]

theorem lwpns_lines (env : Env) (w : World) (lid : Nat) (ps : List Nat) :
    (lineWritePartsNoSplit env w lid ps).lines =
      w.lines.map (fun l => if l.id = lid then { l with participants := ps } else l) := by
  unfold lineWritePartsNoSplit
  rw [syncAllocations_lines]
  rfl

theorem findLine_lwpns_self (env : Env) (w : World) (lid : Nat) (ps : List Nat)
    (l : Line) (hf : findLine w lid = some l) :
    findLine (lineWritePartsNoSplit env w lid ps) lid =
      some { l with participants := ps } := by
  unfold lineWritePartsNoSplit findLine
  rw [syncAllocations_lines]
  exact findLine_updateLineParts_self w lid ps l hf

theorem lwpns_estab (env : Env) (w : World) (lid : Nat) (ps : List Nat)
    (l : Line) (hf : findLine w lid = some l) (d : Nat) (hd : d ∈ ps) :
    ∃ a ∈ (lineWritePartsNoSplit env w lid ps).allocs, a.lineId = lid ∧ a.driver = d := by
  unfold lineWritePartsNoSplit
  exact syncAllocations_estab env (updateLineParts w lid ps) lid
    { l with participants := ps }
    (findLine_updateLineParts_self w lid ps l hf) d hd

theorem lwpns_keep (env : Env) (w : World) (lid : Nat) (ps : List Nat) (a : Alloc)
    (ha : a ∈ w.allocs) (hne : a.lineId ≠ lid) :
    a ∈ (lineWritePartsNoSplit env w lid ps).allocs := by
  unfold lineWritePartsNoSplit
  exact syncAllocations_keep env (updateLineParts w lid ps) lid a ha hne

theorem lwpns_mem_other (env : Env) (w : World) (lid : Nat) (ps : List Nat)
    (l : Line) (hm : l ∈ w.lines) (hne : l.id ≠ lid) :
    l ∈ (lineWritePartsNoSplit env w lid ps).lines := by
  rw [lwpns_lines]
  exact List.mem_map.mpr ⟨l, hm, by simp [hne]⟩

theorem winv_lwpns (env : Env) (w : World) (lid : Nat) (ps : List Nat)
    (hb : ∀ e ∈ w.expeditions, e.id < w.nextId)
    (hlb : ∀ l ∈ w.lines, l.id < w.nextId)
    (hen : (w.expeditions.map (fun e => e.id)).Nodup)
    (hln : (w.lines.map (fun l => l.id)).Nodup)
    (hev : ∀ l ∈ w.lines, ∃ e ∈ w.expeditions, e.id = l.expeditionId)
    (hpa : ∀ l ∈ w.lines, l.id ≠ lid → ∀ d ∈ l.participants,
        ∃ a ∈ w.allocs, a.lineId = l.id ∧ a.driver = d) :
    WInv (lineWritePartsNoSplit env w lid ps) := by
  set g : Line → Line :=
    (fun l => if l.id = lid then { l with participants := ps } else l) with hg
  have hid : ∀ l, (g l).id = l.id := fun l => by
    by_cases h : l.id = lid <;> simp [hg, h]
  have hexp : ∀ l, (g l).expeditionId = l.expeditionId := fun l => by
    by_cases h : l.id = lid <;> simp [hg, h]
  refine ⟨?_, ?_, ?_, ?_, ?_, ?_⟩
  · intro e he
    rw [lwpns_exps] at he
    rw [lwpns_nextId]
    exact hb e he
  · intro l hl
    rw [lwpns_lines] at hl
    rw [lwpns_nextId]
    rcases List.mem_map.mp hl with ⟨x, hx, rfl⟩
    rw [hid x]
    exact hlb x hx
  · show ((lineWritePartsNoSplit env w lid ps).expeditions.map _).Nodup
    rw [lwpns_exps]
    exact hen
  · show ((lineWritePartsNoSplit env w lid ps).lines.map _).Nodup
    rw [lwpns_lines, mapLines_ids _ g hid]
    exact hln
  · intro l hl
    rw [lwpns_lines] at hl
    rcases List.mem_map.mp hl with ⟨x, hx, rfl⟩
    rcases hev x hx with ⟨e, he, heq⟩
    refine ⟨e, ?_, ?_⟩
    · rw [lwpns_exps]
      exact he
    · rw [hexp x]
      exact heq
  · intro l hl d hd
    rw [lwpns_lines] at hl
    rcases List.mem_map.mp hl with ⟨x, hx, rfl⟩
    by_cases hxl : x.id = lid
    · have hfx : findLine w lid = some x := by
        unfold findLine
        rw [← hxl]
        exact find?_id_of_mem w.lines x hln hx
      simp only [hxl, if_true, eq_self_iff_true] at hd ⊢
      rcases lwpns_estab env w lid ps x hfx d hd with ⟨a, ha, h1, h2⟩
      exact ⟨a, ha, by rw [h1], h2⟩
    · simp only [hxl, if_false] at hd ⊢
      rcases hpa x hx hxl d hd with ⟨a, ha, h1, h2⟩
      exact ⟨a, lwpns_keep env w lid ps a ha (by omega), h1, h2⟩

-- createLine lemmas

theorem createLine_fst (env : Env) (w : World) (eid pid : Nat) (ps : List Nat)
    (veh : Option Nat) (seq? : Option Int) :
    (createLine env w eid pid ps veh seq?).1 =
      syncAllocations env
        (resequenceExp
          { w with
            lines := w.lines ++
              [⟨w.nextId, eid,
                (match seq? with | some s => s | none => nextSeqFor w eid),
                pid, veh, ps⟩]
            nextId := w.nextId + 1 } eid)
        w.nextId := rfl

theorem createLine_exps (env : Env) (w : World) (eid pid : Nat) (ps : List Nat)
    (veh : Option Nat) (seq? : Option Int) :
    (createLine env w eid pid ps veh seq?).1.expeditions = w.expeditions := by
  rw [createLine_fst, syncAllocations_exps, resequenceExp_exps]

theorem createLine_nextId (env : Env) (w : World) (eid pid : Nat) (ps : List Nat)
    (veh : Option Nat) (seq? : Option Int) :
    (createLine env w eid pid ps veh seq?).1.nextId = w.nextId + 1 := by
  rw [createLine_fst, syncAllocations_nextId, resequenceExp_nextId]

theorem createLine_line_ids (env : Env) (w : World) (eid pid : Nat) (ps : List Nat)
    (veh : Option Nat) (seq? : Option Int) :
    (createLine env w eid pid ps veh seq?).1.lines.map (fun l => l.id) =
      w.lines.map (fun l => l.id) ++ [w.nextId] := by
  rw [createLine_fst, syncAllocations_lines, resequence_ids, List.map_append]
  rfl

theorem resequence_mem_inv (w : World) (eid : Nat) (x : Line)
    (hx : x ∈ (resequenceExp w eid).lines) :
    ∃ l ∈ w.lines, x.id = l.id ∧ x.expeditionId = l.expeditionId ∧
      x.pickingId = l.pickingId ∧ x.participants = l.participants := by
  rw [resequenceExp_def] at hx
  rcases List.mem_map.mp hx with ⟨l, hl, rfl⟩
  refine ⟨l, hl, ?_⟩
  by_cases h : l.expeditionId = eid <;> simp [h]

theorem createLine_alloc_keep (env : Env) (w : World) (eid pid : Nat) (ps : List Nat)
    (veh : Option Nat) (seq? : Option Int) (a : Alloc)
    (ha : a ∈ w.allocs) (hne : a.lineId ≠ w.nextId) :
    a ∈ (createLine env w eid pid ps veh seq?).1.allocs := by
  rw [createLine_fst]
  apply syncAllocations_keep _ _ _ a _ hne
  rw [resequenceExp_allocs]
  exact ha

theorem createLine_mem_core (env : Env) (w : World) (eid pid : Nat) (ps : List Nat)
    (veh : Option Nat) (seq? : Option Int) (l : Line) (hm : l ∈ w.lines) :
    ∃ x ∈ (createLine env w eid pid ps veh seq?).1.lines,
      x.id = l.id ∧ x.expeditionId = l.expeditionId ∧ x.pickingId = l.pickingId ∧
      x.participants = l.participants := by
  rw [createLine_fst]
  show ∃ x ∈ (syncAllocations _ _ _).lines, _
  rw [syncAllocations_lines]
  exact resequence_mem_core _ eid l (List.mem_append_left _ hm)

theorem createLine_w1_nodup (w : World) (nl : Line) (hid : nl.id = w.nextId)
    (hlb : ∀ l ∈ w.lines, l.id < w.nextId)
    (hln : (w.lines.map (fun l => l.id)).Nodup) :
    ((w.lines ++ [nl]).map (fun l => l.id)).Nodup := by
  rw [List.map_append, List.nodup_append]
  refine ⟨hln, by simp, ?_⟩
  intro x hx hx2
  rcases List.mem_map.mp hx with ⟨l, hl, rfl⟩
  have hb := hlb l hl
  simp [hid] at hx2
  omega

theorem createLine_estab (env : Env) (w : World) (eid pid : Nat) (ps : List Nat)
    (veh : Option Nat) (seq? : Option Int)
    (hlb : ∀ l ∈ w.lines, l.id < w.nextId)
    (hln : (w.lines.map (fun l => l.id)).Nodup) :
    ∃ x ∈ (createLine env w eid pid ps veh seq?).1.lines,
      x.id = w.nextId ∧ x.expeditionId = eid ∧ x.pickingId = pid ∧
      x.participants = ps ∧
      ∀ d ∈ ps, ∃ a ∈ (createLine env w eid pid ps veh seq?).1.allocs,
        a.lineId = x.id ∧ a.driver = d := by
  rw [createLine_fst]
  set nl : Line := ⟨w.nextId, eid,
    (match seq? with | some s => s | none => nextSeqFor w eid), pid, veh, ps⟩ with hnl
  set w1 : World := { w with lines := w.lines ++ [nl], nextId := w.nextId + 1 } with hw1
  set w2 : World := resequenceExp w1 eid with hw2
  have hmem1 : nl ∈ w1.lines := List.mem_append_right _ (List.mem_singleton.mpr rfl)
  rcases resequence_mem_core w1 eid nl hmem1 with ⟨x, hx, hxid, hxe, hxp, hxparts⟩
  have hw2n : (w2.lines.map (fun l => l.id)).Nodup := by
    rw [hw2, resequence_ids]
    exact createLine_w1_nodup w nl rfl hlb hln
  have hxid' : x.id = w.nextId := by rw [hxid]
  have hfind : findLine w2 w.nextId = some x := by
    unfold findLine
    rw [← hxid']
    exact find?_id_of_mem w2.lines x hw2n hx
  refine ⟨x, ?_, hxid', by rw [hxe], by rw [hxp], by rw [hxparts], ?_⟩
  · show x ∈ (syncAllocations _ _ _).lines
    rw [syncAllocations_lines]
    exact hx
  · intro d hd
    have hd' : d ∈ x.participants := by rw [hxparts]; exact hd
    rcases syncAllocations_estab env w2 w.nextId x hfind d hd' with ⟨a, ha, h1, h2⟩
    exact ⟨a, ha, by rw [h1, hxid'], h2⟩

theorem resequence_append_estab (env : Env) (w : World) (eid : Nat) (nl : Line)
    (hid : nl.id = w.nextId)
    (hlb : ∀ l ∈ w.lines, l.id < w.nextId)
    (hln : (w.lines.map (fun l => l.id)).Nodup)
    (l : Line)
    (hl : l ∈ (resequenceExp
        { w with lines := w.lines ++ [nl], nextId := w.nextId + 1 } eid).lines)
    (hlid : l.id = w.nextId)
    (d : Nat) (hd : d ∈ l.participants) :
    ∃ a ∈ (syncAllocations env
        (resequenceExp { w with lines := w.lines ++ [nl], nextId := w.nextId + 1 } eid)
        w.nextId).allocs,
      a.lineId = l.id ∧ a.driver = d := by
  have hw2n : ((resequenceExp
      { w with lines := w.lines ++ [nl], nextId := w.nextId + 1 } eid).lines.map
        (fun y => y.id)).Nodup := by
    rw [resequence_ids]
    exact createLine_w1_nodup w nl hid hlb hln
  have hfind := find?_id_of_mem _ l hw2n hl
  rw [hlid] at hfind
  rcases syncAllocations_estab env _ w.nextId l hfind d hd with ⟨a, ha, h1, h2⟩
  exact ⟨a, ha, by rw [h1, hlid], h2⟩

theorem winv_createLine (env : Env) (w : World) (eid pid : Nat) (ps : List Nat)
    (veh : Option Nat) (seq? : Option Int) (hInv : WInv w)
    (he : ∃ e ∈ w.expeditions, e.id = eid) :
    WInv (createLine env w eid pid ps veh seq?).1 := by
  have hids := createLine_line_ids env w eid pid ps veh seq?
  have hexps := createLine_exps env w eid pid ps veh seq?
  have hnext := createLine_nextId env w eid pid ps veh seq?
  refine ⟨?_, ?_, ?_, ?_, ?_, ?_⟩
  · intro e hee
    rw [hexps] at hee
    rw [hnext]
    exact Nat.lt_succ_of_lt (hInv.expBound e hee)
  · intro l hl
    rw [hnext]
    have : l.id ∈ (createLine env w eid pid ps veh seq?).1.lines.map (fun x => x.id) :=
      List.mem_map.mpr ⟨l, hl, rfl⟩
    rw [hids] at this
    rcases List.mem_append.mp this with h | h
    · rcases List.mem_map.mp h with ⟨x, hx, hxe⟩
      have := hInv.lineBound x hx
      omega
    · simp at h
      omega
  · show ((createLine env w eid pid ps veh seq?).1.expeditions.map _).Nodup
    rw [hexps]
    exact hInv.expNodup
  · show ((createLine env w eid pid ps veh seq?).1.lines.map _).Nodup
    rw [hids]
    have := createLine_w1_nodup w
      ⟨w.nextId, eid, (match seq? with | some s => s | none => nextSeqFor w eid),
        pid, veh, ps⟩ rfl hInv.lineBound hInv.lineNodup
    rw [List.map_append] at this
    exact this
  · intro l hl
    rw [createLine_fst] at hl
    rw [syncAllocations_lines] at hl
    rcases resequence_mem_inv _ eid l hl with ⟨x, hx, hxid, hxe, _, _⟩
    rcases List.mem_append.mp hx with h | h
    · rcases hInv.lineExpValid x h with ⟨e, hee, heq⟩
      refine ⟨e, by rw [hexps]; exact hee, by rw [hxe]; exact heq⟩
    · rcases he with ⟨e, hee, heq⟩
      refine ⟨e, by rw [hexps]; exact hee, ?_⟩
      rcases List.mem_singleton.mp h with rfl
      rw [hxe]
      exact heq
  · intro l hl d hd
    rw [createLine_fst] at hl ⊢
    rw [syncAllocations_lines] at hl
    rcases resequence_mem_inv _ eid l hl with ⟨x, hx, hxid, hxe, hxp, hxparts⟩
    rcases List.mem_append.mp hx with h | h
    · rcases hInv.partAlloc x h d (by rw [← hxparts]; exact hd) with ⟨a, ha, h1, h2⟩
      have hbd := hInv.lineBound x h
      refine ⟨a, ?_, by rw [hxid]; exact h1, h2⟩
      apply syncAllocations_keep
      · rw [resequenceExp_allocs]
        exact ha
      · omega
    · rcases List.mem_singleton.mp h with rfl
      exact resequence_append_estab env w eid _ rfl hInv.lineBound hInv.lineNodup
        l hl (by rw [hxid]) d hd

-- splitOneDriver branch equations

theorem splitOneDriver_ss (env : Env) (w : World) (c date pid : Nat)
    (veh : Option Nat) (d : Nat) (te : Expedition)
    (hk : findExpKey w c date d = some te) (ex : Line)
    (hfl : findLineByExpPicking w te.id pid = some ex) :
    splitOneDriver env w c date pid veh d =
      if d ∈ ex.participants ∧ ex.participants.length = 1 then w
      else lineWritePartsNoSplit env w ex.id [d] := by
  simp only [splitOneDriver, hk, hfl]

theorem splitOneDriver_sn (env : Env) (w : World) (c date pid : Nat)
    (veh : Option Nat) (d : Nat) (te : Expedition)
    (hk : findExpKey w c date d = some te)
    (hfl : findLineByExpPicking w te.id pid = none) :
    splitOneDriver env w c date pid veh d = (createLine env w te.id pid [d] veh none).1 := by
  simp only [splitOneDriver, hk, hfl]

theorem splitOneDriver_ns (env : Env) (w : World) (c date pid : Nat)
    (veh : Option Nat) (d : Nat)
    (hk : findExpKey w c date d = none) (ex : Line)
    (hfl : findLineByExpPicking (createExpedition env w c date d).1 w.nextId pid = some ex) :
    splitOneDriver env w c date pid veh d =
      if d ∈ ex.participants ∧ ex.participants.length = 1 then
        (createExpedition env w c date d).1
      else lineWritePartsNoSplit env (createExpedition env w c date d).1 ex.id [d] := by
  simp only [splitOneDriver, hk, createExpedition_snd, hfl]

theorem splitOneDriver_nn (env : Env) (w : World) (c date pid : Nat)
    (veh : Option Nat) (d : Nat)
    (hk : findExpKey w c date d = none)
    (hfl : findLineByExpPicking (createExpedition env w c date d).1 w.nextId pid = none) :
    splitOneDriver env w c date pid veh d =
      (createLine env (createExpedition env w c date d).1 w.nextId pid [d] veh none).1 := by
  simp only [splitOneDriver, hk, createExpedition_snd, hfl]

-- finder facts

theorem findExpKey_mem {w : World} {c date drv : Nat} {te : Expedition}
    (hk : findExpKey w c date drv = some te) : te ∈ w.expeditions :=
  List.mem_of_find?_eq_some hk

theorem findExpKey_props {w : World} {c date drv : Nat} {te : Expedition}
    (hk : findExpKey w c date drv = some te) :
    te.company = c ∧ te.date = date ∧ te.driverId = drv := by
  simpa using List.find?_some hk

theorem findLineByExpPicking_mem {w : World} {eid pid : Nat} {ex : Line}
    (hfl : findLineByExpPicking w eid pid = some ex) : ex ∈ w.lines :=
  List.mem_of_find?_eq_some hfl

theorem findLineByExpPicking_props {w : World} {eid pid : Nat} {ex : Line}
    (hfl : findLineByExpPicking w eid pid = some ex) :
    ex.expeditionId = eid ∧ ex.pickingId = pid := by
  simpa using List.find?_some hfl

theorem findLine_mem {w : World} {lid : Nat} {l : Line}
    (hf : findLine w lid = some l) : l ∈ w.lines :=
  List.mem_of_find?_eq_some hf

theorem findLine_id {w : World} {lid : Nat} {l : Line}
    (hf : findLine w lid = some l) : l.id = lid := by
  simpa using List.find?_some hf

-- injectivity on nodup projections

theorem mem_map_nodup_inj {α β} {f : α → β} {l : List α} (h : (l.map f).Nodup)
    {x y : α} (hx : x ∈ l) (hy : y ∈ l) (hf : f x = f y) : x = y := by
  induction l with
  | nil => cases hx
  | cons a t ih =>
    rw [List.map_cons, List.nodup_cons] at h
    rcases List.mem_cons.mp hx with rfl | hx2
    · rcases List.mem_cons.mp hy with rfl | hy2
      · rfl
      · exact absurd (List.mem_map.mpr ⟨y, hy2, hf.symm⟩) h.1
    · rcases List.mem_cons.mp hy with rfl | hy2
      · exact absurd (List.mem_map.mpr ⟨x, hx2, hf⟩) h.1
      · exact ih h.2 hx2 hy2

-- fresh-expedition has no pre-existing lines

theorem no_line_of_fresh_exp (env : Env) (w : World) (c date d pid : Nat)
    (hb : ∀ e ∈ w.expeditions, e.id < w.nextId)
    (hev : ∀ l ∈ w.lines, ∃ e ∈ w.expeditions, e.id = l.expeditionId) :
    findLineByExpPicking (createExpedition env w c date d).1 w.nextId pid = none := by
  rw [createExpedition_fst]
  show w.lines.find? _ = none
  apply List.find?_eq_none.mpr
  intro l hl
  rcases hev l hl with ⟨e, he, heq⟩
  have hb2 := hb e he
  simp only [decide_eq_true_eq]
  intro h
  rcases h with ⟨h1, _⟩
  omega

-- findLine through partial updates

theorem findLine_updateLineParts_other (w : World) (lid : Nat) (ps : List Nat)
    (i : Nat) (hne : i ≠ lid) :
    findLine (updateLineParts w lid ps) i = findLine w i := by
  rw [findLine_updateLineParts w lid ps i]
  cases hf : findLine w i with
  | none => rfl
  | some x =>
    have hx : x.id = i := findLine_id hf
    simp [hx, hne]

theorem lineCore_lwpns_other (env : Env) (w : World) (lid : Nat) (ps : List Nat)
    (i : Nat) (hne : i ≠ lid) :
    lineCore (lineWritePartsNoSplit env w lid ps) i = lineCore w i := by
  unfold lineCore lineWritePartsNoSplit
  rw [findLine_sync, findLine_updateLineParts_other w lid ps i hne]

theorem find?_none_right {α} (p : α → Bool) (l1 l2 : List α)
    (h : ∀ x ∈ l2, ¬ p x) : (l1 ++ l2).find? p = l1.find? p := by
  cases h1 : l1.find? p with
  | some a => exact find?_append_some p l1 l2 a h1
  | none =>
    apply List.find?_eq_none.mpr
    intro x hx
    rcases List.mem_append.mp hx with hm | hm
    · exact List.find?_eq_none.mp h1 x hm
    · exact h x hm

theorem lineCore_createLine_old (env : Env) (w : World) (eid pid : Nat)
    (ps : List Nat) (veh : Option Nat) (seq? : Option Int) (i : Nat)
    (hlt : i < w.nextId) :
    lineCore (createLine env w eid pid ps veh seq?).1 i = lineCore w i := by
  rw [createLine_fst]
  rw [lineCore_sync, lineCore_resequence]
  unfold lineCore findLine
  show ((w.lines ++ [_]).find? _).map _ = _
  rw [find?_none_right]
  intro x hx
  rcases List.mem_singleton.mp hx with rfl
  simp
  omega

theorem lineCore_createExpedition (env : Env) (w : World) (c d drv : Nat) (i : Nat) :
    lineCore (createExpedition env w c d drv).1 i = lineCore w i := rfl

-- splitOneDriver: invariant preservation, monotonicity, core preservation

theorem winv_splitOneDriver (env : Env) (w : World) (c date pid : Nat)
    (veh : Option Nat) (d : Nat) (hInv : WInv w) :
    WInv (splitOneDriver env w c date pid veh d) := by
  cases hk : findExpKey w c date d with
  | some te =>
    cases hfl : findLineByExpPicking w te.id pid with
    | some ex =>
      rw [splitOneDriver_ss env w c date pid veh d te hk ex hfl]
      by_cases hc : d ∈ ex.participants ∧ ex.participants.length = 1
      · rw [if_pos hc]
        exact hInv
      · rw [if_neg hc]
        exact winv_lwpns env w ex.id [d] hInv.expBound hInv.lineBound hInv.expNodup
          hInv.lineNodup hInv.lineExpValid (fun l hl _ => hInv.partAlloc l hl)
    | none =>
      rw [splitOneDriver_sn env w c date pid veh d te hk hfl]
      exact winv_createLine env w te.id pid [d] veh none hInv
        ⟨te, findExpKey_mem hk, rfl⟩
  | none =>
    have hw' := winv_createExpedition env w c date d hInv
    cases hfl : findLineByExpPicking (createExpedition env w c date d).1 w.nextId pid with
    | some ex =>
      rw [splitOneDriver_ns env w c date pid veh d hk ex hfl]
      by_cases hc : d ∈ ex.participants ∧ ex.participants.length = 1
      · rw [if_pos hc]
        exact hw'
      · rw [if_neg hc]
        exact winv_lwpns env _ ex.id [d] hw'.expBound hw'.lineBound hw'.expNodup
          hw'.lineNodup hw'.lineExpValid (fun l hl _ => hw'.partAlloc l hl)
    | none =>
      rw [splitOneDriver_nn env w c date pid veh d hk hfl]
      refine winv_createLine env _ w.nextId pid [d] veh none hw' ?_
      rw [createExpedition_fst]
      exact ⟨⟨w.nextId, c, date, d, env.driverDefault d, ExpState.planned, none⟩,
        List.mem_append_right _ (List.mem_singleton.mpr rfl), rfl⟩

theorem splitOneDriver_exps_mono (env : Env) (w : World) (c date pid : Nat)
    (veh : Option Nat) (d : Nat) (e : Expedition) (he : e ∈ w.expeditions) :
    e ∈ (splitOneDriver env w c date pid veh d).expeditions := by
  have hce : e ∈ (createExpedition env w c date d).1.expeditions := by
    rw [createExpedition_fst]
    exact List.mem_append_left _ he
  cases hk : findExpKey w c date d with
  | some te =>
    cases hfl : findLineByExpPicking w te.id pid with
    | some ex =>
      rw [splitOneDriver_ss env w c date pid veh d te hk ex hfl]
      by_cases hc : d ∈ ex.participants ∧ ex.participants.length = 1
      · rw [if_pos hc]
        exact he
      · rw [if_neg hc, lwpns_exps]
        exact he
    | none =>
      rw [splitOneDriver_sn env w c date pid veh d te hk hfl, createLine_exps]
      exact he
  | none =>
    cases hfl : findLineByExpPicking (createExpedition env w c date d).1 w.nextId pid with
    | some ex =>
      rw [splitOneDriver_ns env w c date pid veh d hk ex hfl]
      by_cases hc : d ∈ ex.participants ∧ ex.participants.length = 1
      · rw [if_pos hc]
        exact hce
      · rw [if_neg hc, lwpns_exps]
        exact hce
    | none =>
      rw [splitOneDriver_nn env w c date pid veh d hk hfl, createLine_exps]
      exact hce

theorem splitOneDriver_core (env : Env) (w : World) (c date pid : Nat)
    (veh : Option Nat) (d : Nat) (hInv : WInv w)
    (e : Expedition) (he : e ∈ w.expeditions) (hed : e.driverId ≠ d)
    (lid : Nat) (l : Line) (hfl0 : findLine w lid = some l)
    (hexp : l.expeditionId = e.id) :
    lineCore (splitOneDriver env w c date pid veh d) lid = lineCore w lid := by
  have hlmem : l ∈ w.lines := findLine_mem hfl0
  have hlid : l.id = lid := findLine_id hfl0
  have hbd : l.id < w.nextId := hInv.lineBound l hlmem
  cases hk : findExpKey w c date d with
  | some te =>
    have hte : te ∈ w.expeditions := findExpKey_mem hk
    have htedrv : te.driverId = d := (findExpKey_props hk).2.2
    have hteid : te.id ≠ e.id := by
      intro hcontra
      have : te = e := mem_map_nodup_inj hInv.expNodup hte he hcontra
      rw [this] at htedrv
      exact hed htedrv
    cases hfl : findLineByExpPicking w te.id pid with
    | some ex =>
      have hexmem : ex ∈ w.lines := findLineByExpPicking_mem hfl
      have hexexp : ex.expeditionId = te.id := (findLineByExpPicking_props hfl).1
      have hexne : ex.id ≠ lid := by
        intro hcontra
        have hexl : ex = l := mem_map_nodup_inj hInv.lineNodup hexmem hlmem
          (by rw [hcontra, hlid])
        rw [hexl, hexp] at hexexp
        exact hteid hexexp.symm
      rw [splitOneDriver_ss env w c date pid veh d te hk ex hfl]
      by_cases hc : d ∈ ex.participants ∧ ex.participants.length = 1
      · rw [if_pos hc]
      · rw [if_neg hc]
        exact lineCore_lwpns_other env w ex.id [d] lid (fun h => hexne h.symm)
    | none =>
      rw [splitOneDriver_sn env w c date pid veh d te hk hfl]
      exact lineCore_createLine_old env w te.id pid [d] veh none lid (by omega)
  | none =>
    cases hfl : findLineByExpPicking (createExpedition env w c date d).1 w.nextId pid with
    | some ex =>
      exact absurd hfl (by
        rw [no_line_of_fresh_exp env w c date d pid hInv.expBound hInv.lineExpValid]
        simp)
    | none =>
      rw [splitOneDriver_nn env w c date pid veh d hk hfl]
      rw [lineCore_createLine_old env _ w.nextId pid [d] veh none lid (by
        rw [createExpedition_fst]
        show lid < w.nextId + 1
        omega)]
      exact lineCore_createExpedition env w c date d lid

-- splitOneDriver: establishment and preservation of ExtraRelocated

theorem splitOneDriver_estab (env : Env) (w : World) (c date pid : Nat)
    (veh : Option Nat) (d : Nat) (hInv : WInv w) :
    ExtraRelocated (splitOneDriver env w c date pid veh d) c date pid d := by
  cases hk : findExpKey w c date d with
  | some te =>
    have hte := findExpKey_mem hk
    obtain ⟨htc, htd, htdrv⟩ := findExpKey_props hk
    cases hfl : findLineByExpPicking w te.id pid with
    | some ex =>
      have hexmem := findLineByExpPicking_mem hfl
      obtain ⟨hexe, hexp⟩ := findLineByExpPicking_props hfl
      rw [splitOneDriver_ss env w c date pid veh d te hk ex hfl]
      by_cases hc : d ∈ ex.participants ∧ ex.participants.length = 1
      · rw [if_pos hc]
        have hparts : ex.participants = [d] := mem_length_one hc.1 hc.2
        rcases hInv.partAlloc ex hexmem d hc.1 with ⟨a, ha, h1, h2⟩
        exact ⟨te, hte, htc, htd, htdrv, ex, hexmem, hexe, hexp, hparts, a, ha, h1, h2⟩
      · rw [if_neg hc]
        have hfx : findLine w ex.id = some ex :=
          find?_id_of_mem w.lines ex hInv.lineNodup hexmem
        rcases lwpns_estab env w ex.id [d] ex hfx d (by simp) with ⟨a, ha, h1, h2⟩
        refine ⟨te, by rw [lwpns_exps]; exact hte, htc, htd, htdrv,
          { ex with participants := [d] }, ?_, hexe, hexp, rfl, a, ha, h1, h2⟩
        rw [lwpns_lines]
        exact List.mem_map.mpr ⟨ex, hexmem, by simp⟩
    | none =>
      rw [splitOneDriver_sn env w c date pid veh d te hk hfl]
      rcases createLine_estab env w te.id pid [d] veh none hInv.lineBound hInv.lineNodup
        with ⟨x, hx, hxid, hxe, hxp, hxparts, hall⟩
      rcases hall d (by simp) with ⟨a, ha, h1, h2⟩
      exact ⟨te, by rw [createLine_exps]; exact hte, htc, htd, htdrv,
        x, hx, hxe, hxp, hxparts, a, ha, h1, h2⟩
  | none =>
    have hw' := winv_createExpedition env w c date d hInv
    cases hfl : findLineByExpPicking (createExpedition env w c date d).1 w.nextId pid with
    | some ex =>
      exact absurd hfl (by
        rw [no_line_of_fresh_exp env w c date d pid hInv.expBound hInv.lineExpValid]
        simp)
    | none =>
      rw [splitOneDriver_nn env w c date pid veh d hk hfl]
      rcases createLine_estab env _ w.nextId pid [d] veh none hw'.lineBound hw'.lineNodup
        with ⟨x, hx, hxid, hxe, hxp, hxparts, hall⟩
      rcases hall d (by simp) with ⟨a, ha, h1, h2⟩
      refine ⟨⟨w.nextId, c, date, d, env.driverDefault d, ExpState.planned, none⟩,
        ?_, rfl, rfl, rfl, x, hx, by rw [hxe], hxp, hxparts, a, ha, h1, h2⟩
      rw [createLine_exps, createExpedition_fst]
      exact List.mem_append_right _ (List.mem_singleton.mpr rfl)

theorem splitOneDriver_pres (env : Env) (w : World) (c date pid : Nat)
    (veh : Option Nat) (d d' : Nat) (hInv : WInv w) (hne : d ≠ d')
    (h : ExtraRelocated w c date pid d) :
    ExtraRelocated (splitOneDriver env w c date pid veh d') c date pid d := by
  obtain ⟨e0, he0, hc0, hd0, hdrv0, l0, hl0, hle0, hlp0, hlparts0, a0, ha0, hal0, had0⟩ := h
  have hl0b : l0.id < w.nextId := hInv.lineBound l0 hl0
  cases hk : findExpKey w c date d' with
  | some te =>
    have hte := findExpKey_mem hk
    have htdrv : te.driverId = d' := (findExpKey_props hk).2.2
    have hteid : te.id ≠ e0.id := by
      intro hcontra
      have : te = e0 := mem_map_nodup_inj hInv.expNodup hte he0 hcontra
      rw [this] at htdrv
      rw [hdrv0] at htdrv
      exact hne htdrv
    cases hfl : findLineByExpPicking w te.id pid with
    | some ex =>
      have hexmem := findLineByExpPicking_mem hfl
      have hexe : ex.expeditionId = te.id := (findLineByExpPicking_props hfl).1
      have hexne : ex.id ≠ l0.id := by
        intro hcontra
        have hexl : ex = l0 := mem_map_nodup_inj hInv.lineNodup hexmem hl0 hcontra
        rw [hexl, hle0] at hexe
        exact hteid hexe.symm
      rw [splitOneDriver_ss env w c date pid veh d' te hk ex hfl]
      by_cases hc : d' ∈ ex.participants ∧ ex.participants.length = 1
      · rw [if_pos hc]
        exact ⟨e0, he0, hc0, hd0, hdrv0, l0, hl0, hle0, hlp0, hlparts0, a0, ha0, hal0, had0⟩
      · rw [if_neg hc]
        refine ⟨e0, by rw [lwpns_exps]; exact he0, hc0, hd0, hdrv0,
          l0, lwpns_mem_other env w ex.id [d'] l0 hl0 (fun hh => hexne hh.symm),
          hle0, hlp0, hlparts0,
          a0, lwpns_keep env w ex.id [d'] a0 ha0 (by rw [hal0]; exact fun hh => hexne hh.symm),
          hal0, had0⟩
    | none =>
      rw [splitOneDriver_sn env w c date pid veh d' te hk hfl]
      rcases createLine_mem_core env w te.id pid [d'] veh none l0 hl0
        with ⟨x, hx, hxid, hxe, hxp, hxparts⟩
      refine ⟨e0, by rw [createLine_exps]; exact he0, hc0, hd0, hdrv0,
        x, hx, by rw [hxe]; exact hle0, by rw [hxp]; exact hlp0,
        by rw [hxparts]; exact hlparts0,
        a0, createLine_alloc_keep env w te.id pid [d'] veh none a0 ha0
          (by omega), by rw [hal0, hxid], had0⟩
  | none =>
    have hw' := winv_createExpedition env w c date d' hInv
    cases hfl : findLineByExpPicking (createExpedition env w c date d').1 w.nextId pid with
    | some ex =>
      exact absurd hfl (by
        rw [no_line_of_fresh_exp env w c date d' pid hInv.expBound hInv.lineExpValid]
        simp)
    | none =>
      rw [splitOneDriver_nn env w c date pid veh d' hk hfl]
      have he0' : e0 ∈ (createExpedition env w c date d').1.expeditions := by
        rw [createExpedition_fst]
        exact List.mem_append_left _ he0
      have hl0' : l0 ∈ (createExpedition env w c date d').1.lines := hl0
      have ha0' : a0 ∈ (createExpedition env w c date d').1.allocs := ha0
      rcases createLine_mem_core env _ w.nextId pid [d'] veh none l0 hl0'
        with ⟨x, hx, hxid, hxe, hxp, hxparts⟩
      refine ⟨e0, by rw [createLine_exps]; exact he0', hc0, hd0, hdrv0,
        x, hx, by rw [hxe]; exact hle0, by rw [hxp]; exact hlp0,
        by rw [hxparts]; exact hlparts0,
        a0, createLine_alloc_keep env _ w.nextId pid [d'] veh none a0 ha0' ?_,
        by rw [hal0, hxid], had0⟩
      rw [createExpedition_fst]
      show a0.lineId ≠ w.nextId + 1
      omega

-- fold lemmas over the extra drivers

theorem fold_core_inv (env : Env) (c date pid : Nat) (veh : Option Nat)
    (e : Expedition) (lid : Nat) (co : Nat × Nat × List Nat) (hco : co.1 = e.id) :
    ∀ (ds : List Nat) (wa : World), WInv wa → e ∈ wa.expeditions →
      (∀ x ∈ ds, e.driverId ≠ x) →
      lineCore wa lid = some co →
      WInv (ds.foldl (fun y x => splitOneDriver env y c date pid veh x) wa) ∧
      e ∈ (ds.foldl (fun y x => splitOneDriver env y c date pid veh x) wa).expeditions ∧
      lineCore (ds.foldl (fun y x => splitOneDriver env y c date pid veh x) wa) lid = some co := by
  intro ds
  induction ds with
  | nil =>
    intro wa h1 h2 _ h4
    exact ⟨h1, h2, h4⟩
  | cons x t ih =>
    intro wa hInv he hdrv hcore
    rw [List.foldl_cons]
    have hstep : lineCore (splitOneDriver env wa c date pid veh x) lid = lineCore wa lid := by
      unfold lineCore at hcore
      rcases Option.map_eq_some'.mp hcore with ⟨l, hfl, hl⟩
      have hexp : l.expeditionId = e.id := by
        rw [← hl] at hco
        exact hco
      exact splitOneDriver_core env wa c date pid veh x hInv e he
        (hdrv x (List.mem_cons_self x t)) lid l hfl hexp
    exact ih (splitOneDriver env wa c date pid veh x)
      (winv_splitOneDriver env wa c date pid veh x hInv)
      (splitOneDriver_exps_mono env wa c date pid veh x e he)
      (fun y hy => hdrv y (List.mem_cons_of_mem x hy))
      (by rw [hstep]; exact hcore)

theorem fold_pres (env : Env) (c date pid : Nat) (veh : Option Nat) (d : Nat) :
    ∀ (ds : List Nat) (wa : World), WInv wa → (∀ x ∈ ds, d ≠ x) →
      ExtraRelocated wa c date pid d →
      ExtraRelocated (ds.foldl (fun y x => splitOneDriver env y c date pid veh x) wa)
        c date pid d := by
  intro ds
  induction ds with
  | nil =>
    intro wa _ _ h
    exact h
  | cons x t ih =>
    intro wa hInv hd h
    rw [List.foldl_cons]
    exact ih _ (winv_splitOneDriver env wa c date pid veh x hInv)
      (fun y hy => hd y (List.mem_cons_of_mem x hy))
      (splitOneDriver_pres env wa c date pid veh d x hInv (hd x (List.mem_cons_self x t)) h)

theorem fold_all (env : Env) (c date pid : Nat) (veh : Option Nat) :
    ∀ (ds : List Nat) (wa : World), WInv wa → ds.Nodup →
      ∀ d ∈ ds,
        ExtraRelocated (ds.foldl (fun y x => splitOneDriver env y c date pid veh x) wa)
          c date pid d := by
  intro ds
  induction ds with
  | nil =>
    intro wa _ _ d hd
    cases hd
  | cons x t ih =>
    intro wa hInv hnd d hd
    rw [List.foldl_cons]
    rcases List.mem_cons.mp hd with rfl | hmem
    · refine fold_pres env c date pid veh d t _
        (winv_splitOneDriver env wa c date pid veh d hInv) ?_
        (splitOneDriver_estab env wa c date pid veh d hInv)
      intro y hy heq
      rw [← heq] at hy
      exact (List.nodup_cons.mp hnd).1 hy
    · exact ih _ (winv_splitOneDriver env wa c date pid veh x hInv)
        (List.nodup_cons.mp hnd).2 d hmem

-- transport through the final resequencing and sync

theorem extraRelocated_resequence (w : World) (eid c date pid d : Nat)
    (h : ExtraRelocated w c date pid d) :
    ExtraRelocated (resequenceExp w eid) c date pid d := by
  obtain ⟨e0, he0, hc0, hd0, hdrv0, l0, hl0, hle0, hlp0, hlparts0, a0, ha0, hal0, had0⟩ := h
  rcases resequence_mem_core w eid l0 hl0 with ⟨x, hx, hxid, hxe, hxp, hxparts⟩
  exact ⟨e0, he0, hc0, hd0, hdrv0, x, hx, by rw [hxe]; exact hle0,
    by rw [hxp]; exact hlp0, by rw [hxparts]; exact hlparts0,
    a0, ha0, by rw [hal0, hxid], had0⟩

theorem extraRelocated_resequence_fold (c date pid d : Nat) :
    ∀ (es : List Nat) (w : World), ExtraRelocated w c date pid d →
      ExtraRelocated (es.foldl resequenceExp w) c date pid d := by
  intro es
  induction es with
  | nil =>
    intro w h
    exact h
  | cons x t ih =>
    intro w h
    rw [List.foldl_cons]
    exact ih _ (extraRelocated_resequence w x c date pid d h)

theorem lineCore_resequence_fold (lid : Nat) :
    ∀ (es : List Nat) (w : World),
      lineCore (es.foldl resequenceExp w) lid = lineCore w lid := by
  intro es
  induction es with
  | nil =>
    intro w
    rfl
  | cons x t ih =>
    intro w
    rw [List.foldl_cons, ih, lineCore_resequence]

theorem winv_resequence_fold :
    ∀ (es : List Nat) (w : World), WInv w → WInv (es.foldl resequenceExp w) := by
  intro es
  induction es with
  | nil =>
    intro w h
    exact h
  | cons x t ih =>
    intro w h
    rw [List.foldl_cons]
    exact ih _ (winv_resequence w x h)

theorem extraRelocated_sync_ne (env : Env) (w : World) (lid c date pid d : Nat)
    (hln : (w.lines.map (fun x => x.id)).Nodup)
    (l' : Line) (hl' : findLine w lid = some l') (hne : l'.participants ≠ [d])
    (h : ExtraRelocated w c date pid d) :
    ExtraRelocated (syncAllocations env w lid) c date pid d := by
  obtain ⟨e0, he0, hc0, hd0, hdrv0, l0, hl0, hle0, hlp0, hlparts0, a0, ha0, hal0, had0⟩ := h
  have hl0ne : l0.id ≠ lid := by
    intro hcontra
    have hf0 : findLine w lid = some l0 := by
      rw [← hcontra]
      exact find?_id_of_mem w.lines l0 hln hl0
    rw [hf0] at hl'
    injection hl' with hh
    rw [← hh, hlparts0] at hne
    exact hne rfl
  refine ⟨e0, by rw [syncAllocations_exps]; exact he0, hc0, hd0, hdrv0,
    l0, by rw [syncAllocations_lines]; exact hl0, hle0, hlp0, hlparts0,
    a0, syncAllocations_keep env w lid a0 ha0 (by rw [hal0]; exact hl0ne), hal0, had0⟩

-- updateLineParts transports WInv fields (participants of line lid excepted)

theorem splitExtraDrivers_eq (env : Env) (w : World) (lid : Nat)
    (l : Line) (hf : findLine w lid = some l)
    (hlen : 1 < l.participants.length)
    (e : Expedition) (he : findExp w l.expeditionId = some e) :
    splitExtraDrivers env w lid = ((targetExpIds ((l.participants.filter (fun d => d ≠ (if e.driverId ∈ l.participants then e.driverId else l.participants.headD 0))).foldl (fun wa d => splitOneDriver env wa e.company e.date l.pickingId l.vehicle d) (lineWritePartsNoSplit env w lid [(if e.driverId ∈ l.participants then e.driverId else l.participants.headD 0)])) e.company e.date (l.participants.filter (fun d => d ≠ (if e.driverId ∈ l.participants then e.driverId else l.participants.headD 0)))).foldl resequenceExp (resequenceExp ((l.participants.filter (fun d => d ≠ (if e.driverId ∈ l.participants then e.driverId else l.participants.headD 0))).foldl (fun wa d => splitOneDriver env wa e.company e.date l.pickingId l.vehicle d) (lineWritePartsNoSplit env w lid [(if e.driverId ∈ l.participants then e.driverId else l.participants.headD 0)])) e.id)) := by
  have hiff : ¬ (l.participants.length ≤ 1) := by omega
  simp only [splitExtraDrivers, hf, he]
  rw [if_neg hiff]

theorem splitExtraDrivers_spec (env : Env) (w : World) (lid : Nat)
    (l : Line) (hf : findLine w lid = some l)
    (hlen : 1 < l.participants.length)
    (e : Expedition) (he : findExp w l.expeditionId = some e)
    (hnd : l.participants.Nodup)
    (hb : ∀ x ∈ w.expeditions, x.id < w.nextId)
    (hlb : ∀ x ∈ w.lines, x.id < w.nextId)
    (hen : (w.expeditions.map (fun x => x.id)).Nodup)
    (hln : (w.lines.map (fun x => x.id)).Nodup)
    (hev : ∀ x ∈ w.lines, ∃ y ∈ w.expeditions, y.id = x.expeditionId)
    (hpa : ∀ x ∈ w.lines, x.id ≠ lid → ∀ dd ∈ x.participants,
        ∃ a ∈ w.allocs, a.lineId = x.id ∧ a.driver = dd) :
    WInv (splitExtraDrivers env w lid) ∧
    lineCore (splitExtraDrivers env w lid) lid =
      some (l.expeditionId, l.pickingId, [(if e.driverId ∈ l.participants then e.driverId else l.participants.headD 0)]) ∧
    ∀ d ∈ l.participants, d ≠ (if e.driverId ∈ l.participants then e.driverId else l.participants.headD 0) →
      ExtraRelocated (splitExtraDrivers env w lid) e.company e.date l.pickingId d := by
  rw [splitExtraDrivers_eq env w lid l hf hlen e he]
  set k : Nat := (if e.driverId ∈ l.participants then e.driverId else l.participants.headD 0) with hk
  set extras : List Nat := l.participants.filter (fun d => d ≠ k) with hextras
  set w1 : World := lineWritePartsNoSplit env w lid [k] with hw1
  set w2 : World := extras.foldl
    (fun wa d => splitOneDriver env wa e.company e.date l.pickingId l.vehicle d) w1 with hw2
  have he_mem : e ∈ w.expeditions := List.mem_of_find?_eq_some he
  have heid : e.id = l.expeditionId := by simpa using List.find?_some he
  have hkext : ∀ x ∈ extras, e.driverId ≠ x := by
    intro x hx
    rcases List.mem_filter.mp hx with ⟨hxp, hxne⟩
    have hxk : x ≠ k := by simpa using hxne
    by_cases hdm : e.driverId ∈ l.participants
    · have hke : k = e.driverId := by rw [hk, if_pos hdm]
      intro hcontra
      apply hxk
      rw [hke, ← hcontra]
    · intro hcontra
      rw [← hcontra] at hxp
      exact hdm hxp
  have hknd : extras.Nodup := hnd.filter _
  have hw1inv : WInv w1 := winv_lwpns env w lid [k] hb hlb hen hln hev hpa
  have hw1e : e ∈ w1.expeditions := by
    rw [hw1, lwpns_exps]
    exact he_mem
  have hw1core : lineCore w1 lid = some (l.expeditionId, l.pickingId, [k]) := by
    rw [hw1]
    unfold lineCore
    rw [findLine_lwpns_self env w lid [k] l hf]
    rfl
  obtain ⟨hw2inv, hw2e, hw2core⟩ :=
    fold_core_inv env e.company e.date l.pickingId l.vehicle e lid
      (l.expeditionId, l.pickingId, [k]) heid.symm extras w1 hw1inv hw1e hkext hw1core
  have hrel := fold_all env e.company e.date l.pickingId l.vehicle extras w1 hw1inv hknd
  refine ⟨?_, ?_, ?_⟩
  · exact winv_resequence_fold _ _ (winv_resequence w2 e.id hw2inv)
  · rw [lineCore_resequence_fold lid _ _, lineCore_resequence]
    exact hw2core
  · intro d hd hdk
    have hdex : d ∈ extras := by
      rw [hextras]
      exact List.mem_filter.mpr ⟨hd, by simpa using hdk⟩
    exact extraRelocated_resequence_fold _ _ _ _ _ _
      (extraRelocated_resequence w2 e.id _ _ _ _ (hrel d hdex))

/-- C3 (amended): when a participant write leaves more than one driver on a
line (outside the skip-split context), the line keeps exactly one driver —
the expedition's main driver if it is among the participants, else the
first participant — and every other participant ends up with a
single-driver line for the same picking in its own `(company, date)`
expedition (created if absent), carrying an allocation row for that
driver; the driver's previous allocation *amounts* are not relocated (see
the counterexample: the target row can be a fresh zero allocation). -/
theorem C3_split_extra_drivers_amended (env : Env) (w : World) (lid : Nat)
    (ps : List Nat) (l : Line) (e : Expedition)
    (hInv : WInv w) (hl : findLine w lid = some l)
    (he : findExp w l.expeditionId = some e)
    (hps : 1 < ps.length) (hnd : ps.Nodup) :
    lineCore (lineWriteParts env w lid ps) lid =
      some (l.expeditionId, l.pickingId,
        [if e.driverId ∈ ps then e.driverId else ps.headD 0]) ∧
    ∀ d ∈ ps, d ≠ (if e.driverId ∈ ps then e.driverId else ps.headD 0) →
      ExtraRelocated (lineWriteParts env w lid ps) e.company e.date l.pickingId d := by
  have hf1 : findLine (updateLineParts w lid ps) lid = some { l with participants := ps } :=
    findLine_updateLineParts_self w lid ps l hl
  have heq : lineWriteParts env w lid ps =
      syncAllocations env (splitExtraDrivers env (updateLineParts w lid ps) lid) lid := by
    simp only [lineWriteParts, hf1]
    rw [if_pos (show ({ l with participants := ps } : Line).participants.length > 1 from hps)]
  rw [heq]
  have hb1 : ∀ x ∈ (updateLineParts w lid ps).expeditions,
      x.id < (updateLineParts w lid ps).nextId := hInv.expBound
  have hlb1 : ∀ x ∈ (updateLineParts w lid ps).lines,
      x.id < (updateLineParts w lid ps).nextId := by
    intro x hx
    rcases List.mem_map.mp hx with ⟨y, hy, rfl⟩
    by_cases hyl : y.id = lid
    · rw [if_pos hyl]
      exact hInv.lineBound y hy
    · rw [if_neg hyl]
      exact hInv.lineBound y hy
  have hen1 : ((updateLineParts w lid ps).expeditions.map (fun x => x.id)).Nodup :=
    hInv.expNodup
  have hgid : ∀ y : Line,
      (if y.id = lid then { y with participants := ps } else y).id = y.id := fun y => by
    by_cases hyl : y.id = lid <;> simp [hyl]
  have hln1 : ((updateLineParts w lid ps).lines.map (fun x => x.id)).Nodup := by
    show ((w.lines.map _).map _).Nodup
    rw [mapLines_ids w.lines
      (fun y => if y.id = lid then { y with participants := ps } else y) hgid]
    exact hInv.lineNodup
  have hev1 : ∀ x ∈ (updateLineParts w lid ps).lines,
      ∃ y ∈ (updateLineParts w lid ps).expeditions, y.id = x.expeditionId := by
    intro x hx
    rcases List.mem_map.mp hx with ⟨y, hy, rfl⟩
    rcases hInv.lineExpValid y hy with ⟨e2, he2, heq2⟩
    refine ⟨e2, he2, ?_⟩
    by_cases hyl : y.id = lid
    · rw [if_pos hyl]
      exact heq2
    · rw [if_neg hyl]
      exact heq2
  have hpa1 : ∀ x ∈ (updateLineParts w lid ps).lines, x.id ≠ lid →
      ∀ dd ∈ x.participants,
        ∃ a ∈ (updateLineParts w lid ps).allocs, a.lineId = x.id ∧ a.driver = dd := by
    intro x hx hxne dd hdd
    rcases List.mem_map.mp hx with ⟨y, hy, rfl⟩
    by_cases hyl : y.id = lid
    · exfalso
      rw [if_pos hyl] at hxne
      exact hxne hyl
    · rw [if_neg hyl] at hdd ⊢
      exact hInv.partAlloc y hy dd hdd
  obtain ⟨hwsinv, hwscore, hwsrel⟩ :=
    splitExtraDrivers_spec env (updateLineParts w lid ps) lid
      { l with participants := ps } hf1 hps e he hnd hb1 hlb1 hen1 hln1 hev1 hpa1
  constructor
  · rw [lineCore_sync]
    exact hwscore
  · intro d hd hdk
    have hwscore2 := hwscore
    unfold lineCore at hwscore2
    obtain ⟨lk, hfk, hck⟩ := Option.map_eq_some'.mp hwscore2
    have hkparts : lk.participants =
        [if e.driverId ∈ ps then e.driverId else ps.headD 0] :=
      congrArg (fun t => t.2.2) hck
    apply extraRelocated_sync_ne env _ lid e.company e.date l.pickingId d
      hwsinv.lineNodup lk hfk
    · rw [hkparts]
      intro hcontra
      rw [List.cons.injEq] at hcontra
      exact hdk hcontra.1.symm
    · exact hwsrel d hd hdk

theorem C3_split_extra_drivers_amended_witness :
    lineCore (lineWriteParts envPlain worldC3 2 [10, 11]) 2 = some (1, 100, [10]) ∧
    ExtraRelocated (lineWriteParts envPlain worldC3 2 [10, 11]) 0 0 100 11 := by
  have h := C3_split_extra_drivers_amended envPlain worldC3 2 [10, 11]
    ⟨2, 1, 1, 100, none, [10, 11]⟩ ⟨1, 0, 0, 10, none, ExpState.planned, none⟩
    ⟨by decide, by decide, by decide, by decide, by decide, by decide⟩
    (by decide) (by decide) (by decide) (by decide)
  exact ⟨h.1, h.2 11 (by decide) (by decide)⟩




end Expedo






